import Mathlib

/-!
Verification development for the node-net-snmp session protocol engine.

The definitions below are a shallow embedding of the JavaScript sources
(src/src/session.mjs, src/src/constants.mjs and the object-parser module):
JS numbers that hold integers become Int or Nat, JS strings become String
(manipulated through their underlying character lists, mirroring the
character-level JS operations), Buffers become lists of byte values,
fallible code returns Except, and stateful session code becomes explicit
state passing over a SessionState structure.
-/

namespace NetSnmp

/-! ## Constants (src/src/constants.mjs) -/

/-- ObjectType.NoSuchObject = 128 (constants.mjs). -/
def ObjectTypeNoSuchObject : Nat := 128

/-- ObjectType.NoSuchInstance = 129 (constants.mjs). -/
def ObjectTypeNoSuchInstance : Nat := 129

/-- ObjectType.EndOfMibView = 130 (constants.mjs). -/
def ObjectTypeEndOfMibView : Nat := 130

/-- UsmStatsBase = '1.3.6.1.6.3.15.1.1' (constants.mjs). -/
def UsmStatsBase : String := "1.3.6.1.6.3.15.1.1"

/-- The UsmStats table of constants.mjs: numeric OID suffix (as the string
key used by the JS object) to named USM error. -/
def UsmStats : List (String × String) :=
  [("1", "Unsupported Security Level"),
   ("2", "Not In Time Window"),
   ("3", "Unknown User Name"),
   ("4", "Unknown Engine ID"),
   ("5", "Wrong Digest (incorrect password, community or key)"),
   ("6", "Decryption Error")]

/-- JS object lookup UsmStats[key]. -/
def usmStatsLookup (key : String) : Option String :=
  (UsmStats.find? (fun p => p.1 = key)).map (fun p => p.2)

/-! ## Protocol values and varbinds -/

/-- A decoded protocol value.  JS values flowing through the table builder
are numbers, strings or Buffers; we model them with this tagged union. -/
inductive Value where
  | int (n : Int)
  | str (s : String)
  | bytes (bs : List Nat)
deriving DecidableEq, Repr

/-- A varbind: OID (dotted-decimal string), type tag, decoded value. -/
structure Varbind where
  oid : String
  type : Nat
  value : Value
deriving DecidableEq, Repr

instance : Inhabited Varbind := ⟨⟨"", 0, Value.int 0⟩⟩

/-- isVarbindError from the object-parser module: the type tag is one of
the three sentinel error markers. -/
def isVarbindError (v : Varbind) : Bool :=
  v.type = ObjectTypeNoSuchObject ||
  v.type = ObjectTypeNoSuchInstance ||
  v.type = ObjectTypeEndOfMibView

/-! ## readInt64BEasFloat (object-parser module)

The JS source:
  while (buffer.length < 8) buffer = Buffer.concat([Buffer([0]), buffer]);
  const low = buffer.readInt32BE(offset + 4);
  let n = buffer.readInt32BE(offset) * 4294967296.0 + low;
  if (low < 0) n += 4294967296;
  return n;
We model buffers as lists of byte values and the JS double arithmetic as
exact integer arithmetic (the products and sums involved are integral). -/

/-- Big-endian unsigned 32-bit read of the four bytes starting at a given
offset (0 for a missing byte; Node throws out of range instead, but every
use below stays in range). -/
def readUint32BEat (buffer : List Nat) (offset : Nat) : Nat :=
  ((buffer.getD offset 0 * 256 + buffer.getD (offset + 1) 0) * 256 +
      buffer.getD (offset + 2) 0) * 256 +
    buffer.getD (offset + 3) 0

/-- Buffer.readInt32BE: the unsigned big-endian value reinterpreted as a
signed 32-bit integer. -/
def readInt32BEat (buffer : List Nat) (offset : Nat) : Int :=
  let u := readUint32BEat buffer offset
  if u ≥ 2 ^ 31 then (u : Int) - 2 ^ 32 else (u : Int)

/-- One round of the while loop of readInt64BEasFloat: prepend a zero byte
while the buffer is shorter than 8 bytes.  Each round grows the buffer by
one byte, so 8 rounds always reach the loop's exit condition; the fixed
iteration count keeps the definition structurally recursive. -/
def padLoop : Nat → List Nat → List Nat
  | 0, buffer => buffer
  | rounds + 1, buffer =>
    if buffer.length < 8 then padLoop rounds (0 :: buffer) else buffer

/-- The while loop of readInt64BEasFloat: prepend zero bytes until the
buffer is at least 8 bytes long. -/
def padTo8 (buffer : List Nat) : List Nat :=
  padLoop 8 buffer

/-- readInt64BEasFloat from the object-parser module. -/
def readInt64BEasFloat (buffer : List Nat) (offset : Nat) : Int :=
  let buf := padTo8 buffer
  let low := readInt32BEat buf (offset + 4)
  let n := readInt32BEat buf offset * 4294967296 + low
  if low < 0 then n + 4294967296 else n

/-- The numeric value of a buffer's bytes interpreted as a big-endian
unsigned integer (the reading the spec attributes to the Counter64 /
uint64 decode rule). -/
def bigEndianValue (buffer : List Nat) : Nat :=
  buffer.foldl (fun acc b => acc * 256 + b) 0

/-! ## readUint32 (object-parser module) -/

/-- readUint32 applied to the integer produced by the inner readInt call:
  let parseUint = parsedInt >>> 0;
  if (parseUint < 0 || parseUint > 4294967295) throw RangeError(...);
  return parseUint;
The >>> 0 conversion on an integral JS number is reduction modulo 2^32
into [0, 2^32).  The RangeError branch is kept so that its (un)reachability
can be stated. -/
def readUint32 (parsedInt : Int) : Except String Int :=
  let parseUint : Int := parsedInt % 4294967296
  if parseUint < 0 ∨ parseUint > 4294967295 then
    Except.error "Value read as integer out of 32-bit unsigned range"
  else
    Except.ok parseUint

/-- C10: readUint32 never throws its out-of-range RangeError.  For every
integer produced by the inner readInt call, the conversion to unsigned
32 bits lands in [0, 4294967295], the error branch is unreachable, and the
returned value is the input reduced modulo 2^32. -/
theorem readUint32_never_range_error (parsedInt : Int) :
    readUint32 parsedInt = Except.ok (parsedInt % 4294967296) ∧
      0 ≤ parsedInt % 4294967296 ∧ parsedInt % 4294967296 ≤ 4294967295 := by
  have h0 : (0 : Int) ≤ parsedInt % 4294967296 :=
    Int.emod_nonneg _ (by norm_num)
  have h1 : parsedInt % 4294967296 < 4294967296 :=
    Int.emod_lt_of_pos _ (by norm_num)
  refine ⟨?_, h0, by omega⟩
  simp only [readUint32]
  rw [if_neg]
  omega

theorem padLoop_eq (rounds : Nat) (buffer : List Nat)
    (h : 8 ≤ buffer.length + rounds) :
    padLoop rounds buffer = List.replicate (8 - buffer.length) 0 ++ buffer := by
  induction rounds generalizing buffer with
  | zero =>
    have : 8 - buffer.length = 0 := by omega
    simp [padLoop, this]
  | succ r ih =>
    simp only [padLoop]
    split
    · rw [ih (0 :: buffer) (by simp; omega)]
      have h1 : 8 - (0 :: buffer).length = 8 - buffer.length - 1 := by simp; omega
      have h2 : 8 - buffer.length = (8 - buffer.length - 1) + 1 := by omega
      rw [h1, h2, List.replicate_succ']
      simp
    · have : 8 - buffer.length = 0 := by omega
      simp [this]

theorem padTo8_eq (buffer : List Nat) (h : buffer.length ≤ 8) :
    padTo8 buffer = List.replicate (8 - buffer.length) 0 ++ buffer := by
  exact padLoop_eq 8 buffer (by omega)

theorem bigEndianValue_replicate_zero (k : Nat) (bs : List Nat) :
    bigEndianValue (List.replicate k 0 ++ bs) = bigEndianValue bs := by
  induction k with
  | zero => simp
  | succ n ih => simpa [bigEndianValue, List.replicate_succ] using ih

/-- On an exactly-8-byte buffer, the signed-high/unsigned-low combination
computed by readInt64BEasFloat equals the unsigned big-endian value,
shifted down by 2^64 exactly when the top bit is set. -/
theorem readInt64_core_eq (l : List Nat) (hlen : l.length = 8)
    (hb : ∀ b ∈ l, b < 256) :
    (let low := readInt32BEat l 4
     let n := readInt32BEat l 0 * 4294967296 + low
     if low < 0 then n + 4294967296 else n) =
      (bigEndianValue l : Int) -
        (if 2 ^ 63 ≤ bigEndianValue l then 2 ^ 64 else 0) := by
  rcases l with _ | ⟨b0, l⟩; · simp at hlen
  rcases l with _ | ⟨b1, l⟩; · simp at hlen
  rcases l with _ | ⟨b2, l⟩; · simp at hlen
  rcases l with _ | ⟨b3, l⟩; · simp at hlen
  rcases l with _ | ⟨b4, l⟩; · simp at hlen
  rcases l with _ | ⟨b5, l⟩; · simp at hlen
  rcases l with _ | ⟨b6, l⟩; · simp at hlen
  rcases l with _ | ⟨b7, l⟩; · simp at hlen
  rcases l with _ | ⟨x, l⟩
  · have h0 : b0 < 256 := hb _ (by simp)
    have h1 : b1 < 256 := hb _ (by simp)
    have h2 : b2 < 256 := hb _ (by simp)
    have h3 : b3 < 256 := hb _ (by simp)
    have h4 : b4 < 256 := hb _ (by simp)
    have h5 : b5 < 256 := hb _ (by simp)
    have h6 : b6 < 256 := hb _ (by simp)
    have h7 : b7 < 256 := hb _ (by simp)
    simp only [readInt32BEat, readUint32BEat, bigEndianValue, List.foldl,
      List.getD, List.getD_cons_succ, List.getD_cons_zero, List.get?,
      Option.getD_some]
    split_ifs <;> push_cast <;> omega
  · simp at hlen

/-- C7 amended, part 1: for a buffer of at most 8 bytes,
readInt64BEasFloat at offset 0 reads the big-endian SIGNED 64-bit value of
the (left zero-padded) buffer: the unsigned value when it is below 2^63,
and the unsigned value minus 2^64 when the top bit is set. -/
theorem readInt64BEasFloat_signed (buffer : List Nat)
    (hlen : buffer.length ≤ 8) (hb : ∀ b ∈ buffer, b < 256) :
    readInt64BEasFloat buffer 0 =
      (bigEndianValue buffer : Int) -
        (if 2 ^ 63 ≤ bigEndianValue buffer then 2 ^ 64 else 0) := by
  have hpad := padTo8_eq buffer hlen
  have hlen8 : (padTo8 buffer).length = 8 := by
    rw [hpad]; simp; omega
  have hb8 : ∀ b ∈ padTo8 buffer, b < 256 := by
    intro b hbmem
    rw [hpad] at hbmem
    rcases List.mem_append.mp hbmem with h | h
    · have := List.eq_of_mem_replicate h; omega
    · exact hb b h
  have hval : bigEndianValue (padTo8 buffer) = bigEndianValue buffer := by
    rw [hpad]; exact bigEndianValue_replicate_zero _ _
  have hcore := readInt64_core_eq (padTo8 buffer) hlen8 hb8
  simp only [readInt64BEasFloat, Nat.zero_add]
  rw [hval] at hcore
  simpa using hcore

/-- C7 counterexample: on the 8-byte buffer 80 00 00 00 00 00 00 00 the
function returns -2^63, not the big-endian unsigned value 2^63, because
the high 32 bits are read as a signed quantity. -/
theorem readInt64BEasFloat_top_bit_counterexample :
    readInt64BEasFloat [128, 0, 0, 0, 0, 0, 0, 0] 0 = -(2 ^ 63) ∧
      readInt64BEasFloat [128, 0, 0, 0, 0, 0, 0, 0] 0 ≠
        (bigEndianValue [128, 0, 0, 0, 0, 0, 0, 0] : Int) := by
  constructor
  · decide
  · decide

/-- C7 amended, witness: the signed reading at a concrete top-bit-set
buffer. -/
theorem readInt64BEasFloat_signed_witness :
    readInt64BEasFloat [255, 0, 0, 0, 0, 0, 0, 1] 0 =
      (bigEndianValue [255, 0, 0, 0, 0, 0, 0, 1] : Int) -
        (if 2 ^ 63 ≤ bigEndianValue [255, 0, 0, 0, 0, 0, 0, 1] then 2 ^ 64
          else 0) :=
  readInt64BEasFloat_signed [255, 0, 0, 0, 0, 0, 0, 1] (by decide)
    (by decide)

/-! ## oidFollowsOid (object-parser module) -/

/-- The inner while loop of getNumber: consume characters, accumulating
the number, until a dot or the end of the string.  The JS accumulation
n = (n ? n * 10 : n) + (charCode - 48) coincides with n * 10 + (c - 48)
in both the zero and nonzero cases. -/
def getNumberGo (n : Int) : List Char → Int × List Char
  | [] => (n, [])
  | c :: rest =>
    if c = '.' then (n, rest)
    else getNumberGo (n * 10 + ((c.toNat : Int) - 48)) rest

/-- getNumber of oidFollowsOid: null when the cursor is already at the end
of the string, otherwise the parsed component and the remaining
characters. -/
def getNumber : List Char → Option (Int × List Char)
  | [] => none
  | c :: rest => some (getNumberGo 0 (c :: rest))

theorem getNumberGo_length_le (n : Int) (cs : List Char) :
    (getNumberGo n cs).2.length ≤ cs.length := by
  induction cs generalizing n with
  | nil => simp [getNumberGo]
  | cons c rest ih =>
    simp only [getNumberGo]
    split
    · simp
    · exact le_trans (ih _) (Nat.le_succ _)

theorem getNumber_length_lt {cs rest : List Char} {x : Int}
    (h : getNumber cs = some (x, rest)) : rest.length < cs.length := by
  match cs with
  | [] => simp [getNumber] at h
  | c :: cs' =>
    simp only [getNumber, Option.some.injEq, getNumberGo] at h
    split at h
    · cases h; simp
    · have hle := getNumberGo_length_le ((0 : Int) * 10 + ((c.toNat : Int) - 48)) cs'
      rw [h] at hle
      simpa using Nat.lt_succ_of_le hle

/-- The comparison loop of oidFollowsOid, with an explicit iteration bound
so that the definition is structurally recursive.  Each iteration consumes
at least one character of the first OID string, so any bound exceeding its
length gives the loop's limit behavior.  The JS branch structure: a parsed
component of the first OID with none left in the second returns true, an
exhausted first OID returns true, and two components compare as numbers
with ties continuing the loop. -/
def oidFollowsLoop : Nat → List Char → List Char → Bool
  | 0, _, _ => true
  | fuel + 1, as, bs =>
    match getNumber as with
    | none => true
    | some (x, as') =>
      match getNumber bs with
      | none => true
      | some (y, bs') =>
        if y > x then true
        else if y < x then false
        else oidFollowsLoop fuel as' bs'

/-- oidFollowsOid from the object-parser module. -/
def oidFollowsOid (oidString nextString : String) : Bool :=
  oidFollowsLoop (oidString.data.length + 1) oidString.data nextString.data

/-! ### Dotted-decimal rendering and the component-level comparison -/

/-- The decimal digit character for a digit value 0-9. -/
def digitChar (d : Nat) : Char := Char.ofNat (48 + d)

/-- Decimal rendering of a natural number, with an explicit recursion
bound (a number always has fewer than n + 1 digits). -/
def renderNumFuel : Nat → Nat → List Char
  | 0, _ => []
  | fuel + 1, n =>
    if n < 10 then [digitChar n]
    else renderNumFuel fuel (n / 10) ++ [digitChar (n % 10)]

/-- Decimal rendering of a natural number as a character list. -/
def renderNum (n : Nat) : List Char := renderNumFuel (n + 1) n

/-- Canonical dotted-decimal rendering of an OID component list. -/
def renderOidChars : List Nat → List Char
  | [] => []
  | [n] => renderNum n
  | n :: rest => renderNum n ++ '.' :: renderOidChars rest

/-- Canonical dotted-decimal OID string of a component list. -/
def renderOid (xs : List Nat) : String := String.mk (renderOidChars xs)

/-- The comparison rule the spec states for the precedes test: components
are compared as unsigned integers left to right; a larger component of
the second OID answers true at once, a smaller one answers false at once,
and exhaustion of either component list answers true. -/
def oidListFollows : List Nat → List Nat → Bool
  | [], _ => true
  | _ :: _, [] => true
  | a :: as, b :: bs =>
    if b > a then true
    else if b < a then false
    else oidListFollows as bs

theorem digitChar_toNat {d : Nat} (h : d ≤ 9) :
    (digitChar d).toNat = 48 + d := by
  interval_cases d <;> decide

theorem renderNumFuel_digit {fuel n : Nat} (h : n < fuel) :
    ∀ c ∈ renderNumFuel fuel n, 48 ≤ c.toNat ∧ c.toNat ≤ 57 := by
  induction fuel generalizing n with
  | zero => omega
  | succ f ih =>
    intro c hc
    simp only [renderNumFuel] at hc
    split at hc
    · rename_i hn
      simp only [List.mem_singleton] at hc
      subst hc
      rw [digitChar_toNat (by omega)]
      omega
    · rename_i hn
      rcases List.mem_append.mp hc with h1 | h1
      · exact ih (by omega : n / 10 < f) c h1
      · simp only [List.mem_singleton] at h1
        subst h1
        rw [digitChar_toNat (by omega)]
        omega

theorem renderNum_no_dot (n : Nat) : ∀ c ∈ renderNum n, c ≠ '.' := by
  intro c hc
  have := renderNumFuel_digit (Nat.lt_succ_self n) c hc
  intro hdot
  subst hdot
  have h46 : ('.').toNat = 46 := by decide
  rw [h46] at this
  omega

theorem renderNum_ne_nil (n : Nat) : renderNum n ≠ [] := by
  simp only [renderNum, renderNumFuel]
  split
  · simp
  · simp

/-- The digit-accumulation step of getNumberGo. -/
def digitStep (a : Int) (c : Char) : Int := a * 10 + ((c.toNat : Int) - 48)

theorem getNumberGo_append_no_dot (xs : List Char) (ys : List Char)
    (acc : Int) (h : ∀ c ∈ xs, c ≠ '.') :
    getNumberGo acc (xs ++ ys) = getNumberGo (xs.foldl digitStep acc) ys := by
  induction xs generalizing acc with
  | nil => simp
  | cons c rest ih =>
    have hc : c ≠ '.' := h c (by simp)
    simp only [List.cons_append, getNumberGo, if_neg hc, List.foldl_cons]
    exact ih _ (fun d hd => h d (by simp [hd]))

theorem renderNumFuel_foldl {fuel n : Nat} (h : n < fuel) (acc : Int) :
    (renderNumFuel fuel n).foldl digitStep acc =
      acc * 10 ^ (renderNumFuel fuel n).length + n := by
  induction fuel generalizing n acc with
  | zero => omega
  | succ f ih =>
    simp only [renderNumFuel]
    split
    · rename_i hn
      simp only [List.foldl_cons, List.foldl_nil, List.length_singleton,
        pow_one, digitStep]
      rw [digitChar_toNat (by omega)]
      push_cast
      ring
    · rename_i hn
      rw [List.foldl_append, ih (by omega : n / 10 < f) acc]
      simp only [List.foldl_cons, List.foldl_nil, List.length_append,
        List.length_singleton, digitStep]
      rw [digitChar_toNat (by omega : n % 10 ≤ 9), pow_succ]
      have hsplit : (n : Int) = 10 * ((n / 10 : Nat) : Int) +
          ((n % 10 : Nat) : Int) := by
        push_cast
        omega
      push_cast
      push_cast at hsplit
      ring_nf
      ring_nf at hsplit
      omega

theorem renderNum_foldl (n : Nat) (acc : Int) :
    (renderNum n).foldl digitStep acc =
      acc * 10 ^ (renderNum n).length + n :=
  renderNumFuel_foldl (Nat.lt_succ_self n) acc

theorem getNumber_of_ne_nil (l : List Char) (h : l ≠ []) :
    getNumber l = some (getNumberGo 0 l) := by
  cases l with
  | nil => exact absurd rfl h
  | cons c t => rfl

theorem getNumber_renderNum_sep (n : Nat) (rest : List Char) :
    getNumber (renderNum n ++ '.' :: rest) = some ((n : Int), rest) := by
  have hne : renderNum n ++ '.' :: rest ≠ [] := by
    simp
  rw [getNumber_of_ne_nil _ hne,
    getNumberGo_append_no_dot _ _ _ (renderNum_no_dot n),
    renderNum_foldl]
  simp [getNumberGo]

theorem getNumber_renderNum_end (n : Nat) :
    getNumber (renderNum n) = some ((n : Int), []) := by
  rw [getNumber_of_ne_nil _ (renderNum_ne_nil n)]
  have h := getNumberGo_append_no_dot (renderNum n) [] 0 (renderNum_no_dot n)
  rw [List.append_nil] at h
  rw [h, renderNum_foldl]
  simp [getNumberGo]

theorem getNumber_renderOidChars_cons (x : Nat) (xs : List Nat) :
    getNumber (renderOidChars (x :: xs)) =
      some ((x : Int), renderOidChars xs) := by
  cases xs with
  | nil => simpa [renderOidChars] using getNumber_renderNum_end x
  | cons y ys => exact getNumber_renderNum_sep x _

theorem renderOidChars_length_lt (x : Nat) (xs : List Nat) :
    (renderOidChars xs).length < (renderOidChars (x :: xs)).length := by
  have hpos : 0 < (renderNum x).length :=
    List.length_pos.mpr (renderNum_ne_nil x)
  cases xs with
  | nil => simpa [renderOidChars] using hpos
  | cons y ys =>
    simp only [renderOidChars, List.length_append, List.length_cons]
    omega

theorem oidFollowsLoop_refl (fuel : Nat) :
    ∀ as : List Char, as.length < fuel → oidFollowsLoop fuel as as = true := by
  induction fuel with
  | zero => intro as h; omega
  | succ f ih =>
    intro as h
    simp only [oidFollowsLoop]
    cases hg : getNumber as with
    | none => rfl
    | some p =>
      obtain ⟨x, as'⟩ := p
      have hlt : as'.length < as.length := getNumber_length_lt hg
      simp only [gt_iff_lt, lt_irrefl, if_false]
      exact ih as' (by omega)

theorem oidFollowsLoop_render (xs : List Nat) :
    ∀ (ys : List Nat) (fuel : Nat), (renderOidChars xs).length < fuel →
      oidFollowsLoop fuel (renderOidChars xs) (renderOidChars ys) =
        oidListFollows xs ys := by
  induction xs with
  | nil =>
    intro ys fuel hf
    cases fuel with
    | zero => omega
    | succ f => simp [oidFollowsLoop, renderOidChars, getNumber, oidListFollows]
  | cons x xs' ih =>
    intro ys fuel hf
    cases fuel with
    | zero => omega
    | succ f =>
      simp only [oidFollowsLoop, getNumber_renderOidChars_cons]
      cases ys with
      | nil =>
        simp [renderOidChars, getNumber, oidListFollows]
      | cons y ys' =>
        rw [getNumber_renderOidChars_cons y ys']
        simp only [oidListFollows]
        have hcast_lt : ((x : Int) < (y : Int)) ↔ x < y := Int.ofNat_lt
        have hcast_gt : ((y : Int) < (x : Int)) ↔ y < x := Int.ofNat_lt
        by_cases h1 : x < y
        · simp [gt_iff_lt, hcast_lt.mpr h1, h1]
        · by_cases h2 : y < x
          · have hc1 : ¬ (x : Int) < (y : Int) := fun h => h1 (hcast_lt.mp h)
            simp [gt_iff_lt, hc1, hcast_gt.mpr h2, h1, h2]
          · have hxy : ¬ (x : Int) < (y : Int) := fun h => h1 (hcast_lt.mp h)
            have hyx : ¬ (y : Int) < (x : Int) := fun h => h2 (hcast_gt.mp h)
            simp only [gt_iff_lt, if_neg hxy, if_neg hyx, if_neg h1,
              if_neg h2]
            have hlt := renderOidChars_length_lt x xs'
            exact ih ys' f (by omega)

/-- C8: oidFollowsOid compares dotted-decimal components as unsigned
integers left to right, answering true as soon as a component of the
second OID exceeds the corresponding component of the first, false as
soon as it is smaller, and true when either side's components run out;
in particular 1.3.6.1.2 is followed by 1.3.6.1.3 but not conversely, and
every OID string follows itself. -/
theorem oidFollowsOid_spec :
    (∀ xs ys : List Nat,
        oidFollowsOid (renderOid xs) (renderOid ys) = oidListFollows xs ys) ∧
      oidFollowsOid "1.3.6.1.2" "1.3.6.1.3" = true ∧
      oidFollowsOid "1.3.6.1.3" "1.3.6.1.2" = false ∧
      ∀ x : String, oidFollowsOid x x = true := by
  refine ⟨?_, by decide, by decide, ?_⟩
  · intro xs ys
    exact oidFollowsLoop_render xs ys _ (Nat.lt_succ_self _)
  · intro x
    exact oidFollowsLoop_refl _ _ (Nat.lt_succ_self _)

/-! ## oidInSubtree (object-parser module) -/

/-- JS String.prototype.split with separator '.' on the character list. -/
def splitDots : List Char → List (List Char)
  | [] => [[]]
  | c :: rest =>
    if c = '.' then [] :: splitDots rest
    else
      match splitDots rest with
      | g :: gs => (c :: g) :: gs
      | [] => [[c]]

/-- oidInSubtree from the object-parser module: false when the base has
more dot-separated components than the candidate, otherwise every base
component must equal the corresponding candidate component. -/
def oidInSubtree (oidString nextString : String) : Bool :=
  let oid := splitDots oidString.data
  let next := splitDots nextString.data
  if oid.length > next.length then false
  else (List.zip oid next).all (fun p => p.1 = p.2)

/-! ## subtreeCb (session.mjs) -/

/-- Out-of-subtree test used by subtreeCb. -/
def outOfSubtree (baseOid : String) (v : Varbind) : Bool :=
  ! oidInSubtree baseOid v.oid

/-- Result of one subtreeCb invocation: the batch handed to the caller's
feed callback (none when the trimmed batch was empty and the feed
callback was therefore not invoked), and whether subtreeCb returned the
walk-terminating stop signal. -/
structure SubtreeCbResult where
  fed : Option (List Varbind)
  stop : Bool
deriving DecidableEq, Repr

/-- The downward for loop of subtreeCb.  The JS loop starts with i at the
batch length and, whenever the element at position i - 1 is outside the
base subtree, sets the done flag and pops the LAST element of the
(shrinking) array.  Pops only ever remove positions the loop has already
passed, so the read at i - 1 always sees the original element and the
out-of-range branch below is unreachable. -/
def subtreeTrimLoop (baseOid : String) :
    Nat → List Varbind → Bool → List Varbind × Bool
  | 0, vbs, done => (vbs, done)
  | i + 1, vbs, done =>
    match vbs[i]? with
    | none => subtreeTrimLoop baseOid i vbs done
    | some v =>
      if oidInSubtree baseOid v.oid then subtreeTrimLoop baseOid i vbs done
      else subtreeTrimLoop baseOid i vbs.dropLast true

/-- subtreeCb from session.mjs: trim the batch, invoke the caller's feed
callback when anything is left, and return the stop signal when the done
flag was set or the feed callback asked to stop. -/
def subtreeCb (baseOid : String) (feedCb : List Varbind → Bool)
    (varbinds : List Varbind) : SubtreeCbResult :=
  let trimmed := subtreeTrimLoop baseOid varbinds.length varbinds false
  if trimmed.1.length > 0 then
    if feedCb trimmed.1 then ⟨some trimmed.1, true⟩
    else ⟨some trimmed.1, trimmed.2⟩
  else ⟨none, trimmed.2⟩

theorem subtreeTrimLoop_spec (baseOid : String) (orig : List Varbind) :
    ∀ (i : Nat) (d : Bool),
      i + ((orig.drop i).filter (outOfSubtree baseOid)).length ≤
          orig.length →
        subtreeTrimLoop baseOid i
            (orig.take (orig.length -
              ((orig.drop i).filter (outOfSubtree baseOid)).length)) d =
          (orig.take (orig.length -
              (orig.filter (outOfSubtree baseOid)).length),
            d || (orig.take i).any (outOfSubtree baseOid)) := by
  intro i
  induction i with
  | zero =>
    intro d _
    simp [subtreeTrimLoop]
  | succ i ih =>
    intro d hle
    have hi : i < orig.length := by omega
    have hdrop : orig.drop i = orig[i] :: orig.drop (i + 1) :=
      List.drop_eq_getElem_cons hi
    have hcnt : ((orig.drop i).filter (outOfSubtree baseOid)).length =
        ((orig.drop (i + 1)).filter (outOfSubtree baseOid)).length +
          (if outOfSubtree baseOid orig[i] then 1 else 0) := by
      rw [hdrop, List.filter_cons]
      split <;> simp
    have htake : orig.take (i + 1) = orig.take i ++ [orig[i]] := by
      rw [List.take_succ]
      simp [List.getElem?_eq_getElem hi]
    set cnt1 := ((orig.drop (i + 1)).filter (outOfSubtree baseOid)).length
      with hcnt1
    have hbound : i + 1 ≤ orig.length - cnt1 := by omega
    have hget : (orig.take (orig.length - cnt1))[i]? = some orig[i] := by
      rw [List.getElem?_take_of_lt (by omega), List.getElem?_eq_getElem hi]
    simp only [subtreeTrimLoop, hget]
    by_cases hout : outOfSubtree baseOid orig[i]
    · have hin : oidInSubtree baseOid orig[i].oid = false := by
        simpa [outOfSubtree] using hout
      rw [if_neg (by simp [hin])]
      have hdl : (orig.take (orig.length - cnt1)).dropLast =
          orig.take (orig.length - (cnt1 + 1)) := by
        rw [List.dropLast_eq_take, List.length_take, List.take_take]
        congr 1
        omega
      rw [hdl]
      have hcnt' : ((orig.drop i).filter (outOfSubtree baseOid)).length =
          cnt1 + 1 := by
        rw [hcnt, if_pos hout]
      have := ih true (by omega)
      rw [hcnt'] at this
      rw [this]
      have hany : (orig.take (i + 1)).any (outOfSubtree baseOid) = true := by
        rw [htake, List.any_append]
        simp [hout]
      rw [hany]
      simp
    · have hin : oidInSubtree baseOid orig[i].oid = true := by
        simpa [outOfSubtree] using hout
      rw [if_pos hin]
      have hcnt' : ((orig.drop i).filter (outOfSubtree baseOid)).length =
          cnt1 := by
        rw [hcnt, if_neg hout]
        omega
      have := ih d (by omega)
      rw [hcnt'] at this
      rw [this]
      have hany : (orig.take (i + 1)).any (outOfSubtree baseOid) =
          (orig.take i).any (outOfSubtree baseOid) := by
        rw [htake, List.any_append]
        simp [hout]
      rw [hany]

/-- The trim loop as invoked by subtreeCb: starting at the full length,
it keeps the longest prefix with as many elements removed from the end as
there are out-of-subtree varbinds, and the done flag records whether any
varbind was out of the subtree. -/
theorem subtreeTrimLoop_run (baseOid : String) (varbinds : List Varbind) :
    subtreeTrimLoop baseOid varbinds.length varbinds false =
      (varbinds.take (varbinds.length -
          (varbinds.filter (outOfSubtree baseOid)).length),
        varbinds.any (outOfSubtree baseOid)) := by
  have h := subtreeTrimLoop_spec baseOid varbinds varbinds.length false
    (by simp)
  simpa using h

/-- C6 amended: the subtree feed path removes from the END of each batch
exactly as many varbinds as are out of the base subtree (so exactly the
out-of-subtree varbinds themselves only when they form a suffix of the
batch, as in an ordered walk); the remaining prefix is handed to the feed
callback when nonempty, and the walk is terminated exactly when some
varbind of the batch was out of the subtree or the feed callback returned
the stop signal on the trimmed batch. -/
theorem subtreeCb_trims_from_end (baseOid : String)
    (feedCb : List Varbind → Bool) (varbinds : List Varbind) :
    subtreeCb baseOid feedCb varbinds =
      let k := (varbinds.filter (outOfSubtree baseOid)).length
      let trimmed := varbinds.take (varbinds.length - k)
      ⟨if 0 < trimmed.length then some trimmed else none,
        (0 < trimmed.length && feedCb trimmed) ||
          varbinds.any (outOfSubtree baseOid)⟩ := by
  simp only [subtreeCb, subtreeTrimLoop_run, gt_iff_lt]
  by_cases hlen : 0 < (varbinds.take (varbinds.length -
      (varbinds.filter (outOfSubtree baseOid)).length)).length
  · by_cases hf : feedCb (varbinds.take (varbinds.length -
        (varbinds.filter (outOfSubtree baseOid)).length))
    · simp only [if_pos hlen, if_pos hf]
      simp only [List.length_take, lt_min_iff] at hlen
      have hk : (varbinds.filter (outOfSubtree baseOid)).length <
          varbinds.length := by omega
      simp [hlen, hf, hk]
    · simp only [if_pos hlen, if_neg hf]
      simp [hlen, hf]
  · simp only [if_neg hlen]
    simp only [List.length_take, lt_min_iff] at hlen
    simp [hlen]
    intro h
    omega

/-! ## TableBuilder: tableFeedCb (session.mjs) -/

/-- Names of the ObjectType constants table (constants.mjs), keyed by the
numeric tag. -/
def ObjectTypeNames : List (Nat × String) :=
  [(1, "Boolean"), (2, "Integer"), (3, "BitString"), (4, "OctetString"),
   (5, "Null"), (6, "OID"), (64, "IpAddress"), (65, "Counter"),
   (66, "Gauge"), (67, "TimeTicks"), (68, "Opaque"), (70, "Counter64"),
   (128, "NoSuchObject"), (129, "NoSuchInstance"), (130, "EndOfMibView")]

/-- varbindError from the object-parser module. -/
def varbindError (v : Varbind) : String :=
  (((ObjectTypeNames.find? (fun p => p.1 = v.type)).map
      (fun p => p.2)).getD "NotAnError") ++ ": " ++ v.oid

/-- JS String.prototype.replace with a plain-string pattern and the empty
replacement, on character lists: remove the first occurrence of the
pattern, if any. -/
def stripFirstOcc (pat : List Char) : List Char → List Char
  | [] => []
  | c :: rest =>
    if pat.isPrefixOf (c :: rest) then (c :: rest).drop pat.length
    else c :: stripFirstOcc pat rest

/-- oid.replace(pat, '') for the string pattern pat. -/
def replaceFirst (s pat : String) : String :=
  String.mk (stripFirstOcc pat.data s.data)

/-- The JS regex match against ^(\d+)\.(.+)$: a nonempty run of leading
digits, a dot, and a nonempty remainder, yielding the two capture
groups. -/
def colRowMatch (s : String) : Option (String × String) :=
  let ds := s.data.takeWhile (fun c => c.isDigit)
  let rest := s.data.drop ds.length
  if ds = [] then none
  else
    match rest with
    | '.' :: tail =>
      if tail = [] then none else some (String.mk ds, String.mk tail)
    | _ => none

/-- Numeric value of a digit run; match[1] > 0 in JS compares the number
the capture group denotes against zero. -/
def digitsToNat (ds : List Char) : Nat :=
  ds.foldl (fun a c => a * 10 + (c.toNat - 48)) 0

/-- A column specification entry (the values of the Columns object passed
to table()): optional replacement name, optional coercion type, and the
value-to-label table of the enum coercion (the JS colInfo.enum object,
keyed by the string the JS runtime derives from the raw value). -/
structure ColInfo where
  name : Option String := none
  type : Option String := none
  enumLabels : List (String × Value) := []
deriving DecidableEq, Repr

/-- The string a JS object key coerces a value to (decimal rendering for
numbers, identity for strings, byte-wise decoding for Buffers). -/
def valueKey : Value → String
  | Value.int n => toString n
  | Value.str s => s
  | Value.bytes bs => String.mk (bs.map (fun b => Char.ofNat b))

/-- Lower-case hexadecimal digit. -/
def hexDigit (n : Nat) : Char :=
  if n < 10 then Char.ofNat (48 + n) else Char.ofNat (87 + n)

/-- Buffer.toString applied with the hex encoding, modeled byte-wise. -/
def bytesToHex (bs : List Nat) : String :=
  String.mk (bs.foldr (fun b acc => hexDigit (b / 16) :: hexDigit (b % 16) :: acc) [])

/-- The byte content of a value; the uint64 and hex coercions are applied
by the JS code to Buffer values only (a non-Buffer would throw there). -/
def valueBytes : Value → List Nat
  | Value.bytes bs => bs
  | _ => []

/-- The switch on colInfo.type of tableFeedCb: optional per-column
coercion of the decoded value. -/
def coerceValue (ci : ColInfo) (v : Value) : Value :=
  match ci.type with
  | none => v
  | some t =>
    if t = "string" then Value.str (valueKey v)
    else if t = "hex" then Value.str (bytesToHex (valueBytes v))
    else if t = "uint64" then Value.int (readInt64BEasFloat (valueBytes v) 0)
    else if t = "enum" then
      match ci.enumLabels.find? (fun p => p.1 = valueKey v) with
      | some p => p.2
      | none => v
    else v

/-- The row accumulator: row instance suffix to column key to value, in
insertion order. -/
abbrev TableRows := List (String × List (String × Value))

/-- Assignment row[key] = v on a JS object modeled as an association
list: overwrite an existing binding in place, else append. -/
def rowUpsert (row : List (String × Value)) (key : String) (v : Value) :
    List (String × Value) :=
  if row.any (fun p => p.1 = key) then
    row.map (fun p => if p.1 = key then (key, v) else p)
  else row ++ [(key, v)]

/-- The two-level table update of tableFeedCb: create the row object when
absent, then assign the column key. -/
def tableSet (t : TableRows) (rowKey colKey : String) (v : Value) :
    TableRows :=
  if t.any (fun p => p.1 = rowKey) then
    t.map (fun p =>
      if p.1 = rowKey then (p.1, rowUpsert p.2 colKey v) else p)
  else t ++ [(rowKey, rowUpsert [] colKey v)]

/-- Lookup table[rowKey][colKey]. -/
def tableLookup (t : TableRows) (rowKey colKey : String) : Option Value :=
  match t.find? (fun p => p.1 = rowKey) with
  | some p => (p.2.find? (fun q => q.1 = colKey)).map (fun q => q.2)
  | none => none

/-- The per-table walk request state of table(): row prefix OID, column
specification, accumulated rows and the sticky first error. -/
structure TableReq where
  rowOid : String
  columns : List (String × ColInfo) := []
  table : TableRows := []
  error : Option String := none
deriving DecidableEq

/-- The body of tableFeedCb for one non-error varbind: strip the row OID,
match column index and row instance suffix, resolve the column key and
coercion from the column specification, and record the value. -/
def tableFeedCbStep (req : TableReq) (v : Varbind) : TableReq :=
  let oid := replaceFirst v.oid req.rowOid
  if oid ≠ "" ∧ oid ≠ v.oid then
    match colRowMatch oid with
    | some (col, rowIdx) =>
      if 0 < digitsToNat col.data then
        let colInfo := (req.columns.find? (fun p => p.1 = col)).map
          (fun p => p.2)
        let colName := match colInfo with
          | some ci => ci.name.getD col
          | none => col
        let thisValue := match colInfo with
          | some ci => coerceValue ci v.value
          | none => v.value
        { req with table := tableSet req.table rowIdx colName thisValue }
      else req
    | none => req
  else req

/-- tableFeedCb from session.mjs over a batch of walked varbinds: an
error sentinel sets the sticky error and stops the walk (the Bool result
is the stop signal returned to the walk driver); every other varbind is
accumulated by tableFeedCbStep. -/
def tableFeedCb (req : TableReq) : List Varbind → TableReq × Bool
  | [] => (req, false)
  | v :: rest =>
    if isVarbindError v then
      ({ req with error := some (varbindError v) }, true)
    else tableFeedCb (tableFeedCbStep req v) rest

theorem stringDataEq {s t : String} (h : s.data = t.data) : s = t := by
  cases s
  cases t
  exact congrArg String.mk h

theorem stripFirstOcc_append_self (pat rest : List Char) :
    stripFirstOcc pat (pat ++ rest) = rest := by
  cases hp : pat ++ rest with
  | nil =>
    rcases List.append_eq_nil.mp hp with ⟨h1, h2⟩
    simp [stripFirstOcc, h2]
  | cons c t =>
    rw [stripFirstOcc]
    rw [← hp]
    rw [if_pos (by simp [List.isPrefixOf_iff_prefix])]
    simp

theorem replaceFirst_strip (pre suffix : String) :
    replaceFirst (pre ++ suffix) pre = suffix := by
  have h : stripFirstOcc pre.data ((pre ++ suffix) : String).data =
      suffix.data := by
    rw [String.data_append]
    exact stripFirstOcc_append_self pre.data suffix.data
  unfold replaceFirst
  rw [h]

theorem colRowMatch_ne_empty {s : String} {p : String × String}
    (h : colRowMatch s = some p) : s ≠ "" := by
  intro hs
  subst hs
  simp [colRowMatch, List.takeWhile] at h

/-- C9: a non-error walked varbind whose OID is the row OID followed by
a digit column index, a dot and a nonempty row instance suffix, with the
column index positive and no column specification configured for it, is
recorded at table[rowInstanceSuffix][columnIndex] with its value
unchanged; and the two-varbind ifDescr example assembles the two-row,
one-column table. -/
theorem tableFeedCb_records :
    (∀ (req : TableReq) (v : Varbind) (stripped col rowIdx : String),
        isVarbindError v = false →
        req.rowOid ≠ "" →
        v.oid = req.rowOid ++ stripped →
        colRowMatch stripped = some (col, rowIdx) →
        0 < digitsToNat col.data →
        req.columns.find? (fun p => p.1 = col) = none →
        tableFeedCb req [v] =
          ({ req with table := tableSet req.table rowIdx col v.value },
            false)) ∧
      tableFeedCb { rowOid := "1.3.6.1.2.1.2.2.1." }
          [⟨"1.3.6.1.2.1.2.2.1.2.1", 4, Value.str "eth0"⟩,
            ⟨"1.3.6.1.2.1.2.2.1.2.2", 4, Value.str "eth1"⟩] =
        ({ rowOid := "1.3.6.1.2.1.2.2.1.",
           table := [("1", [("2", Value.str "eth0")]),
             ("2", [("2", Value.str "eth1")])] }, false) := by
  constructor
  · intro req v stripped col rowIdx herr hrow hoid hmatch hpos hcols
    have hstrip : replaceFirst v.oid req.rowOid = stripped := by
      rw [hoid]
      exact replaceFirst_strip req.rowOid stripped
    have hne : stripped ≠ "" := colRowMatch_ne_empty hmatch
    have hne2 : stripped ≠ v.oid := by
      intro he
      apply hrow
      have hdata : stripped.data = req.rowOid.data ++ stripped.data := by
        conv_lhs => rw [he, hoid, String.data_append]
      have hlen := congrArg List.length hdata
      simp only [List.length_append] at hlen
      have h0 : req.rowOid.data.length = 0 := by omega
      exact stringDataEq (List.length_eq_zero.mp h0)
    have hstep : tableFeedCbStep req v =
        { req with table := tableSet req.table rowIdx col v.value } := by
      unfold tableFeedCbStep
      rw [hstrip]
      rw [if_pos ⟨hne, hne2⟩]
      rw [hmatch]
      simp only [hcols, Option.map_none', if_pos hpos]
    simp only [tableFeedCb, herr, Bool.false_eq_true, if_false, hstep]
  · decide

/-- C9 witness: recording a single ifDescr varbind through the general
statement. -/
theorem tableFeedCb_records_witness :
    tableFeedCb { rowOid := "1.3.6.1.2.1.2.2.1." }
        [⟨"1.3.6.1.2.1.2.2.1.2.1", 4, Value.str "eth0"⟩] =
      ({ ({ rowOid := "1.3.6.1.2.1.2.2.1." } : TableReq) with
          table := tableSet ({ rowOid := "1.3.6.1.2.1.2.2.1." } : TableReq).table
            "1" "2" (Varbind.value ⟨"1.3.6.1.2.1.2.2.1.2.1", 4, Value.str "eth0"⟩) },
        false) :=
  tableFeedCb_records.1 { rowOid := "1.3.6.1.2.1.2.2.1." }
    ⟨"1.3.6.1.2.1.2.2.1.2.1", 4, Value.str "eth0"⟩ "2.1" "2" "1"
    (by decide) (by decide) (by decide) (by decide) (by decide) (by decide)

/-- C6 counterexample: with base OID 1.3 and a batch whose first varbind
is out of the subtree while its second is inside it, subtreeCb feeds the
out-of-subtree varbind and drops the in-subtree one, so the delivered
batch is not the in-subtree filtering of the batch. -/
theorem subtreeCb_not_exact_filter :
    (subtreeCb "1.3" (fun _ => false)
        [⟨"1.4.1", 2, Value.int 1⟩, ⟨"1.3.5", 2, Value.int 2⟩]).fed ≠
      some ([⟨"1.4.1", 2, Value.int 1⟩, ⟨"1.3.5", 2, Value.int 2⟩].filter
        (fun v => oidInSubtree "1.3" v.oid)) := by
  decide

/-! ## BulkReassembler: the feed callback of Session.getBulk (session.mjs)

The JS callback loops over the flat reply varbind list with an index i.
The first loop runs while i is below both the request length and the
reply length; the second continues i to the end of the reply.  Both are
embedded with an explicit fuel argument (any fuel at least the remaining
iteration count gives the loop's behavior); the error paths return the
ResponseInvalidCode of the single ResponseInvalidError the JS delivers. -/

/-- ResponseInvalidCode.EReqResOidNoMatch (constants.mjs). -/
def EReqResOidNoMatch : Nat := 6

/-- ResponseInvalidCode.EOutOfOrder (constants.mjs). -/
def EOutOfOrder : Nat := 8

/-- An entry of the assembled getBulk result array: a plain varbind for a
non-repeater slot, a list of varbinds for a repeater slot. -/
inductive BulkEntry where
  | single (v : Varbind)
  | reps (vs : List Varbind)
deriving DecidableEq, Repr

instance {ε α : Type} [DecidableEq ε] [DecidableEq α] :
    DecidableEq (Except ε α) := fun a b =>
  match a, b with
  | Except.ok x, Except.ok y =>
    if h : x = y then isTrue (congrArg Except.ok h)
    else isFalse (fun he => h (Except.ok.inj he))
  | Except.error x, Except.error y =>
    if h : x = y then isTrue (congrArg Except.error h)
    else isFalse (fun he => h (Except.error.inj he))
  | Except.ok _, Except.error _ => isFalse (fun he => Except.noConfusion he)
  | Except.error _, Except.ok _ => isFalse (fun he => Except.noConfusion he)

/-- First loop of the getBulk feed callback: indices below both the
request and the reply length.  An error sentinel is accepted unless
strict OID-match checking is on and the OIDs disagree; a value varbind
must follow the request OID unless backwards getNexts are tolerated.
Non-repeater slots collect the varbind itself, repeater slots open a
one-element list. -/
def bulkFirstRound (rom bgn : Bool) (nonRepeaters : Nat)
    (reqVbs replyVbs : List Varbind) :
    Nat → Nat → List BulkEntry → Except Nat (List BulkEntry × Nat)
  | 0, i, acc => Except.ok (acc, i)
  | fuel + 1, i, acc =>
    if h : i < reqVbs.length ∧ i < replyVbs.length then
      let rv := replyVbs.get ⟨i, h.2⟩
      let qv := reqVbs.get ⟨i, h.1⟩
      let acc2 := acc ++
        [if i < nonRepeaters then BulkEntry.single rv else BulkEntry.reps [rv]]
      if isVarbindError rv then
        if rom = true ∧ qv.oid ≠ rv.oid then Except.error EReqResOidNoMatch
        else bulkFirstRound rom bgn nonRepeaters reqVbs replyVbs fuel (i + 1) acc2
      else
        if bgn = false ∧ oidFollowsOid qv.oid rv.oid = false then
          Except.error EOutOfOrder
        else bulkFirstRound rom bgn nonRepeaters reqVbs replyVbs fuel (i + 1) acc2
    else Except.ok (acc, i)

/-- Second loop of the getBulk feed callback: indices beyond the first
round.  The repeater slot is reqIndex = (i - nonRepeaters) mod repeaters
+ nonRepeaters, the element is checked against the reply varbind at
i - repeaters with the same rule as the first loop, then appended to the
slot's list.  A JS run could only reach a non-list slot or an
out-of-range prevIndex by leaving this code's invariants (the model keeps
the accumulator unchanged there). -/
def bulkRepetitions (rom bgn : Bool) (nonRepeaters : Nat)
    (reqVbs replyVbs : List Varbind) :
    Nat → Nat → List BulkEntry → Except Nat (List BulkEntry)
  | 0, _, acc => Except.ok acc
  | fuel + 1, i, acc =>
    if h : i < replyVbs.length then
      let repeaters := reqVbs.length - nonRepeaters
      let reqIndex := (i - nonRepeaters) % repeaters + nonRepeaters
      let prevOid := ((replyVbs[i - repeaters]?).map Varbind.oid).getD ""
      let rv := replyVbs.get ⟨i, h⟩
      let acc2 := acc.set reqIndex
        (match acc[reqIndex]? with
          | some (BulkEntry.reps vs) => BulkEntry.reps (vs ++ [rv])
          | some (BulkEntry.single w) => BulkEntry.single w
          | none => BulkEntry.reps [rv])
      if isVarbindError rv then
        if rom = true ∧ prevOid ≠ rv.oid then Except.error EReqResOidNoMatch
        else bulkRepetitions rom bgn nonRepeaters reqVbs replyVbs fuel (i + 1) acc2
      else
        if bgn = false ∧ oidFollowsOid prevOid rv.oid = false then
          Except.error EOutOfOrder
        else bulkRepetitions rom bgn nonRepeaters reqVbs replyVbs fuel (i + 1) acc2
    else Except.ok acc

/-- The feed callback built by Session.getBulk: run the first round, then
the repetition rounds, delivering either the single ResponseInvalidError
code or the assembled entry array. -/
def getBulkFeedCb (rom bgn : Bool) (nonRepeaters : Nat)
    (reqVbs replyVbs : List Varbind) : Except Nat (List BulkEntry) :=
  match bulkFirstRound rom bgn nonRepeaters reqVbs replyVbs
      (reqVbs.length + replyVbs.length) 0 [] with
  | Except.error e => Except.error e
  | Except.ok (acc, i) =>
    bulkRepetitions rom bgn nonRepeaters reqVbs replyVbs
      (reqVbs.length + replyVbs.length) i acc

/-- Modelled from the claim's description of the result shape: the
repeater bucket at slot j collects the reply varbinds at indices
j, j + repeaters, j + 2 * repeaters, ... below the given bound. -/
def bulkSpecBucketUpTo (replyVbs : List Varbind) (rep j upTo : Nat) :
    List Varbind :=
  ((List.range upTo).filter (fun i => j ≤ i ∧ (i - j) % rep = 0)).filterMap
    (fun i => replyVbs[i]?)

/-- Modelled from the claim's description: the first nonRepeaters entries
are the corresponding reply varbinds; the remaining repeaters entries are
the round-robin buckets, restricted to reply indices below upTo. -/
def bulkPartial (nonRepeaters rep upTo : Nat) (replyVbs : List Varbind) :
    List BulkEntry :=
  (List.range (nonRepeaters + rep)).map (fun j =>
    if j < nonRepeaters then BulkEntry.single (replyVbs.getD j default)
    else BulkEntry.reps (bulkSpecBucketUpTo replyVbs rep j upTo))

/-- Modelled from the claim's description: the delivered getBulk array. -/
def bulkSpecResult (nonRepeaters rep : Nat) (replyVbs : List Varbind) :
    List BulkEntry :=
  bulkPartial nonRepeaters rep replyVbs.length replyVbs

/-- Among the repeater slots, exactly the round-robin slot
(i - nR) mod rep + nR satisfies the bucket membership condition for reply
index i. -/
theorem bulk_req_index_unique {nR rep i j : Nat}
    (hj : nR ≤ j) (hj2 : j < nR + rep) (hi : nR ≤ i) :
    (j ≤ i ∧ (i - j) % rep = 0) ↔ j = (i - nR) % rep + nR := by
  constructor
  · rintro ⟨hji, hmod⟩
    obtain ⟨k, hk⟩ := Nat.dvd_of_mod_eq_zero hmod
    have hik : i = j + rep * k := by omega
    subst hik
    have h1 : j + rep * k - nR = (j - nR) + rep * k := by omega
    rw [h1, Nat.add_mul_mod_self_left, Nat.mod_eq_of_lt (by omega)]
    omega
  · rintro rfl
    have hle := Nat.mod_le (i - nR) rep
    refine ⟨by omega, ?_⟩
    have hdm := Nat.div_add_mod (i - nR) rep
    have h1 : i - ((i - nR) % rep + nR) = rep * ((i - nR) / rep) := by
      omega
    rw [h1, Nat.mul_mod_right]

theorem bulkSpecBucketUpTo_succ (replyVbs : List Varbind) (rep j i : Nat) :
    bulkSpecBucketUpTo replyVbs rep j (i + 1) =
      bulkSpecBucketUpTo replyVbs rep j i ++
        (if j ≤ i ∧ (i - j) % rep = 0 then (replyVbs[i]?).toList else []) := by
  unfold bulkSpecBucketUpTo
  rw [List.range_succ, List.filter_append, List.filterMap_append]
  congr 1
  by_cases h : j ≤ i ∧ (i - j) % rep = 0
  · rw [if_pos h]
    simp only [List.filter_cons, List.filter_nil]
    rw [if_pos (by simpa using h)]
    simp only [List.filterMap]
    cases replyVbs[i]? <;> rfl
  · rw [if_neg h]
    simp only [List.filter_cons, List.filter_nil]
    rw [if_neg (by simpa using h)]
    simp

/-- The entries the first loop appends for the index range [i, i + cnt):
the reply varbind itself below nonRepeaters, else a one-element list. -/
def bulkFirstEntries (nonRepeaters : Nat) (replyVbs : List Varbind) :
    Nat → Nat → List BulkEntry
  | _, 0 => []
  | i, cnt + 1 =>
    (if i < nonRepeaters then BulkEntry.single (replyVbs.getD i default)
      else BulkEntry.reps [replyVbs.getD i default]) ::
      bulkFirstEntries nonRepeaters replyVbs (i + 1) cnt

theorem bulkFirstRound_ok {rom bgn : Bool} {nR : Nat}
    {reqVbs replyVbs : List Varbind} :
    ∀ (fuel i : Nat) (acc : List BulkEntry) (res : List BulkEntry × Nat),
      min reqVbs.length replyVbs.length ≤ i + fuel →
      bulkFirstRound rom bgn nR reqVbs replyVbs fuel i acc =
        Except.ok res →
      res = (acc ++ bulkFirstEntries nR replyVbs i
          (min reqVbs.length replyVbs.length - i),
        max i (min reqVbs.length replyVbs.length)) := by
  intro fuel
  induction fuel with
  | zero =>
    intro i acc res hle hok
    simp only [bulkFirstRound] at hok
    cases hok
    have h0 : min reqVbs.length replyVbs.length - i = 0 := by omega
    rw [h0]
    simp only [bulkFirstEntries, List.append_nil]
    rw [Nat.max_eq_left (by omega)]
  | succ fuel ih =>
    intro i acc res hle hok
    simp only [bulkFirstRound] at hok
    by_cases hcond : i < reqVbs.length ∧ i < replyVbs.length
    · rw [dif_pos hcond] at hok
      have hmn : i < min reqVbs.length replyVbs.length := by omega
      have hrv : replyVbs.get ⟨i, hcond.2⟩ = replyVbs.getD i default := by
        rw [List.getD_eq_getElem _ _ hcond.2, List.get_eq_getElem]
      have hent : bulkFirstEntries nR replyVbs i
          (min reqVbs.length replyVbs.length - i) =
            (if i < nR then BulkEntry.single (replyVbs.getD i default)
              else BulkEntry.reps [replyVbs.getD i default]) ::
              bulkFirstEntries nR replyVbs (i + 1)
                (min reqVbs.length replyVbs.length - (i + 1)) := by
        have hsub : min reqVbs.length replyVbs.length - i =
            (min reqVbs.length replyVbs.length - (i + 1)) + 1 := by omega
        rw [hsub]
        rfl
      have hmax : max i (min reqVbs.length replyVbs.length) =
          max (i + 1) (min reqVbs.length replyVbs.length) := by omega
      have hfin : ∀ hk : bulkFirstRound rom bgn nR reqVbs replyVbs fuel
          (i + 1) (acc ++
            [if i < nR then
                BulkEntry.single (replyVbs.get ⟨i, hcond.2⟩)
              else BulkEntry.reps [replyVbs.get ⟨i, hcond.2⟩]]) =
          Except.ok res, res = (acc ++ bulkFirstEntries nR replyVbs i
            (min reqVbs.length replyVbs.length - i),
          max i (min reqVbs.length replyVbs.length)) := by
        intro hk
        have := ih (i + 1) _ _ (by omega) hk
        rw [this, hent, hmax, hrv]
        simp
      split at hok
      · split at hok
        · exact absurd hok (by simp)
        · exact hfin hok
      · split at hok
        · exact absurd hok (by simp)
        · exact hfin hok
    · rw [dif_neg hcond] at hok
      cases hok
      have h0 : min reqVbs.length replyVbs.length - i = 0 := by omega
      rw [h0]
      simp only [bulkFirstEntries, List.append_nil]
      rw [Nat.max_eq_left (by omega)]

theorem bulkFirstEntries_getElem (nR : Nat) (replyVbs : List Varbind) :
    ∀ (cnt i n : Nat),
      (bulkFirstEntries nR replyVbs i cnt)[n]? =
        if n < cnt then
          some (if i + n < nR then
              BulkEntry.single (replyVbs.getD (i + n) default)
            else BulkEntry.reps [replyVbs.getD (i + n) default])
        else none := by
  intro cnt
  induction cnt with
  | zero => intro i n; simp [bulkFirstEntries]
  | succ c ih =>
    intro i n
    cases n with
    | zero => simp [bulkFirstEntries]
    | succ m =>
      simp only [bulkFirstEntries, List.getElem?_cons_succ, ih (i + 1) m]
      have harith : i + 1 + m = i + (m + 1) := by omega
      rw [harith]
      by_cases hm : m < c
      · rw [if_pos hm, if_pos (show m + 1 < c + 1 by omega)]
      · rw [if_neg hm, if_neg (show ¬ m + 1 < c + 1 by omega)]

theorem bulkPartial_getElem (nR rep upTo : Nat) (replyVbs : List Varbind)
    (n : Nat) :
    (bulkPartial nR rep upTo replyVbs)[n]? =
      if n < nR + rep then
        some (if n < nR then BulkEntry.single (replyVbs.getD n default)
          else BulkEntry.reps (bulkSpecBucketUpTo replyVbs rep n upTo))
      else none := by
  unfold bulkPartial
  rw [List.getElem?_map]
  by_cases hn : n < nR + rep
  · rw [List.getElem?_range hn, if_pos hn]
    rfl
  · rw [if_neg hn, List.getElem?_eq_none (by simpa using Nat.le_of_not_lt hn)]
    rfl

theorem bulkSpecBucketUpTo_empty (replyVbs : List Varbind) (rep j upTo : Nat)
    (h : upTo ≤ j) : bulkSpecBucketUpTo replyVbs rep j upTo = [] := by
  unfold bulkSpecBucketUpTo
  rw [List.filter_eq_nil_iff.mpr, List.filterMap_nil]
  intro i hi
  have := List.mem_range.mp hi
  simp only [decide_eq_true_eq, not_and]
  omega

/-- Below j + rep, the bucket at slot j holds at most the reply varbind
at index j itself. -/
theorem bulkSpecBucketUpTo_first (replyVbs : List Varbind) (rep j : Nat)
    (hlen : j < replyVbs.length) :
    ∀ (upTo : Nat), j < upTo → upTo ≤ j + rep →
      bulkSpecBucketUpTo replyVbs rep j upTo = [replyVbs.getD j default] := by
  intro upTo
  induction upTo with
  | zero => omega
  | succ u ih =>
    intro hju hur
    by_cases hc : j < u
    · rw [bulkSpecBucketUpTo_succ, ih hc (by omega)]
      rw [if_neg (by
        rintro ⟨h1, h2⟩
        have hlt : u - j < rep := by omega
        rw [Nat.mod_eq_of_lt hlt] at h2
        omega)]
      simp
    · have hju2 : u = j := by omega
      subst hju2
      rw [bulkSpecBucketUpTo_succ, bulkSpecBucketUpTo_empty _ _ _ _ le_rfl]
      rw [if_pos ⟨le_rfl, by simp⟩]
      simp only [List.nil_append]
      rw [List.getElem?_eq_getElem hlen]
      rw [List.getD_eq_getElem _ _ hlen]
      rfl

theorem bulkFirstEntries_eq_bulkPartial (nR rep : Nat)
    (replyVbs : List Varbind) (hlen : nR + rep ≤ replyVbs.length) :
    bulkFirstEntries nR replyVbs 0 (nR + rep) =
      bulkPartial nR rep (nR + rep) replyVbs := by
  apply List.ext_getElem?
  intro n
  rw [bulkFirstEntries_getElem, bulkPartial_getElem]
  by_cases hn : n < nR + rep
  · rw [if_pos hn, if_pos hn]
    simp only [Nat.zero_add]
    by_cases hnr : n < nR
    · rw [if_pos hnr, if_pos hnr]
    · rw [if_neg hnr, if_neg hnr]
      rw [bulkSpecBucketUpTo_first replyVbs rep n (by omega) (nR + rep) hn
        (by omega)]
  · rw [if_neg hn, if_neg hn]

theorem bulkPartial_length (nR rep upTo : Nat) (replyVbs : List Varbind) :
    (bulkPartial nR rep upTo replyVbs).length = nR + rep := by
  unfold bulkPartial
  simp

/-- Appending reply index i to the round-robin slot turns the partial
assembly below i into the partial assembly below i + 1. -/
theorem bulkPartial_set (nR rep i : Nat) (replyVbs : List Varbind)
    (hrep : 1 ≤ rep) (hnr : nR ≤ i) (hi : i < replyVbs.length) :
    (bulkPartial nR rep i replyVbs).set ((i - nR) % rep + nR)
        (BulkEntry.reps
          (bulkSpecBucketUpTo replyVbs rep ((i - nR) % rep + nR) i ++
            [replyVbs.getD i default])) =
      bulkPartial nR rep (i + 1) replyVbs := by
  have hj0 : (i - nR) % rep + nR < nR + rep := by
    have := Nat.mod_lt (i - nR) (show 0 < rep by omega)
    omega
  apply List.ext_getElem?
  intro n
  rw [List.getElem?_set]
  by_cases hn : (i - nR) % rep + nR = n
  · subst hn
    rw [if_pos rfl, bulkPartial_length, if_pos hj0, bulkPartial_getElem,
      if_pos hj0, if_neg (by omega)]
    rw [bulkSpecBucketUpTo_succ]
    rw [if_pos ((bulk_req_index_unique (by omega) hj0 hnr).mpr rfl)]
    rw [List.getElem?_eq_getElem hi, List.getD_eq_getElem _ _ hi]
    rfl
  · rw [if_neg hn, bulkPartial_getElem, bulkPartial_getElem]
    by_cases hlt : n < nR + rep
    · rw [if_pos hlt, if_pos hlt]
      by_cases hnr2 : n < nR
      · rw [if_pos hnr2, if_pos hnr2]
      · rw [if_neg hnr2, if_neg hnr2]
        rw [bulkSpecBucketUpTo_succ]
        rw [if_neg (fun hp =>
          hn (((bulk_req_index_unique (by omega) hlt hnr).mp hp).symm))]
        simp
    · rw [if_neg hlt, if_neg hlt]

theorem bulkRepetitions_ok {rom bgn : Bool} {nR rep : Nat}
    {reqVbs replyVbs : List Varbind}
    (hreq : reqVbs.length = nR + rep) (hrep : 1 ≤ rep) :
    ∀ (fuel i : Nat) (res : List BulkEntry),
      replyVbs.length ≤ i + fuel → nR + rep ≤ i → i ≤ replyVbs.length →
      bulkRepetitions rom bgn nR reqVbs replyVbs fuel i
          (bulkPartial nR rep i replyVbs) = Except.ok res →
      res = bulkPartial nR rep replyVbs.length replyVbs := by
  intro fuel
  induction fuel with
  | zero =>
    intro i res hf hlo hhi hok
    simp only [bulkRepetitions] at hok
    cases hok
    have : i = replyVbs.length := by omega
    rw [this]
  | succ fuel ih =>
    intro i res hf hlo hhi hok
    simp only [bulkRepetitions] at hok
    by_cases hcond : i < replyVbs.length
    · rw [dif_pos hcond] at hok
      have hrepeat : reqVbs.length - nR = rep := by omega
      rw [hrepeat] at hok
      have hj0 : (i - nR) % rep + nR < nR + rep := by
        have := Nat.mod_lt (i - nR) (show 0 < rep by omega)
        omega
      have hacc : (bulkPartial nR rep i replyVbs)[(i - nR) % rep + nR]? =
          some (BulkEntry.reps
            (bulkSpecBucketUpTo replyVbs rep ((i - nR) % rep + nR) i)) := by
        rw [bulkPartial_getElem, if_pos hj0, if_neg (by omega)]
      rw [hacc] at hok
      have hrv : replyVbs.get ⟨i, hcond⟩ = replyVbs.getD i default := by
        rw [List.getD_eq_getElem _ _ hcond, List.get_eq_getElem]
      rw [hrv] at hok
      rw [bulkPartial_set nR rep i replyVbs hrep (by omega) hcond] at hok
      split at hok
      · split at hok
        · exact absurd hok (by simp)
        · exact ih (i + 1) res (by omega) (by omega) (by omega) hok
      · split at hok
        · exact absurd hok (by simp)
        · exact ih (i + 1) res (by omega) (by omega) (by omega) hok
    · rw [dif_neg hcond] at hok
      cases hok
      have : i = replyVbs.length := by omega
      rw [this]

/-- C1: whenever the getBulk feed callback accepts a reply (every per-slot
error/ordering check passes) for a request of nonRepeaters + repeaters
varbinds with at least one repeater and a reply covering the first round,
the delivered array holds the first nonRepeaters reply varbinds verbatim,
followed by the repeater buckets: slot j opens with first-round reply
varbind j and collects exactly the later reply varbinds whose index is
congruent to j modulo repeaters, in order — the round-robin reassembly
(i - nonRepeaters) mod repeaters + nonRepeaters the claim describes. -/
theorem getBulk_reassembly (rom bgn : Bool) (nR rep : Nat)
    (reqVbs replyVbs : List Varbind) (res : List BulkEntry)
    (hreq : reqVbs.length = nR + rep) (hrep : 1 ≤ rep)
    (hreply : nR + rep ≤ replyVbs.length)
    (hok : getBulkFeedCb rom bgn nR reqVbs replyVbs = Except.ok res) :
    res = bulkSpecResult nR rep replyVbs := by
  unfold getBulkFeedCb at hok
  cases hfr : bulkFirstRound rom bgn nR reqVbs replyVbs
      (reqVbs.length + replyVbs.length) 0 [] with
  | error e => rw [hfr] at hok; exact absurd hok (by simp)
  | ok p =>
    obtain ⟨acc, i⟩ := p
    rw [hfr] at hok
    have hchar := bulkFirstRound_ok (reqVbs.length + replyVbs.length) 0 []
      (acc, i) (by omega) hfr
    have hmn : min reqVbs.length replyVbs.length = nR + rep := by omega
    rw [hmn] at hchar
    have hacc : acc = bulkFirstEntries nR replyVbs 0 (nR + rep) := by
      have := congrArg Prod.fst hchar
      simpa using this
    have hi : i = nR + rep := by
      have := congrArg Prod.snd hchar
      simpa using this
    rw [hacc, hi, bulkFirstEntries_eq_bulkPartial nR rep replyVbs hreply]
      at hok
    exact bulkRepetitions_ok hreq hrep (reqVbs.length + replyVbs.length)
      (nR + rep) res (by omega) le_rfl hreply hok

/-- C1 witness: the claim's concrete instance, nonRepeaters = 1,
repeaters = 2, reply [NR, R1a, R2a, R1b, R2b]: the general theorem
applied there, together with the evaluation of the feed callback and of
the reassembled shape [NR, [R1a, R1b], [R2a, R2b]]. -/
theorem getBulk_reassembly_witness :
    getBulkFeedCb false true 1
        [⟨"1.3.6.1.2.1.1.3", 5, Value.int 0⟩,
          ⟨"1.3.6.1.2.1.2.2.1.1", 5, Value.int 0⟩,
          ⟨"1.3.6.1.2.1.2.2.1.2", 5, Value.int 0⟩]
        [⟨"1.3.6.1.2.1.1.3.0", 67, Value.int 123⟩,
          ⟨"1.3.6.1.2.1.2.2.1.1.1", 2, Value.int 1⟩,
          ⟨"1.3.6.1.2.1.2.2.1.2.1", 4, Value.str "eth0"⟩,
          ⟨"1.3.6.1.2.1.2.2.1.1.2", 2, Value.int 2⟩,
          ⟨"1.3.6.1.2.1.2.2.1.2.2", 4, Value.str "eth1"⟩] =
      Except.ok
        [BulkEntry.single ⟨"1.3.6.1.2.1.1.3.0", 67, Value.int 123⟩,
          BulkEntry.reps [⟨"1.3.6.1.2.1.2.2.1.1.1", 2, Value.int 1⟩,
            ⟨"1.3.6.1.2.1.2.2.1.1.2", 2, Value.int 2⟩],
          BulkEntry.reps [⟨"1.3.6.1.2.1.2.2.1.2.1", 4, Value.str "eth0"⟩,
            ⟨"1.3.6.1.2.1.2.2.1.2.2", 4, Value.str "eth1"⟩]] ∧
      [BulkEntry.single ⟨"1.3.6.1.2.1.1.3.0", 67, Value.int 123⟩,
          BulkEntry.reps [⟨"1.3.6.1.2.1.2.2.1.1.1", 2, Value.int 1⟩,
            ⟨"1.3.6.1.2.1.2.2.1.1.2", 2, Value.int 2⟩],
          BulkEntry.reps [⟨"1.3.6.1.2.1.2.2.1.2.1", 4, Value.str "eth0"⟩,
            ⟨"1.3.6.1.2.1.2.2.1.2.2", 4, Value.str "eth1"⟩]] =
        bulkSpecResult 1 2
          [⟨"1.3.6.1.2.1.1.3.0", 67, Value.int 123⟩,
            ⟨"1.3.6.1.2.1.2.2.1.1.1", 2, Value.int 1⟩,
            ⟨"1.3.6.1.2.1.2.2.1.2.1", 4, Value.str "eth0"⟩,
            ⟨"1.3.6.1.2.1.2.2.1.1.2", 2, Value.int 2⟩,
            ⟨"1.3.6.1.2.1.2.2.1.2.2", 4, Value.str "eth1"⟩] :=
  ⟨by decide,
    getBulk_reassembly false true 1 2
      [⟨"1.3.6.1.2.1.1.3", 5, Value.int 0⟩,
        ⟨"1.3.6.1.2.1.2.2.1.1", 5, Value.int 0⟩,
        ⟨"1.3.6.1.2.1.2.2.1.2", 5, Value.int 0⟩]
      [⟨"1.3.6.1.2.1.1.3.0", 67, Value.int 123⟩,
        ⟨"1.3.6.1.2.1.2.2.1.1.1", 2, Value.int 1⟩,
        ⟨"1.3.6.1.2.1.2.2.1.2.1", 4, Value.str "eth0"⟩,
        ⟨"1.3.6.1.2.1.2.2.1.1.2", 2, Value.int 2⟩,
        ⟨"1.3.6.1.2.1.2.2.1.2.2", 4, Value.str "eth1"⟩]
      [BulkEntry.single ⟨"1.3.6.1.2.1.1.3.0", 67, Value.int 123⟩,
        BulkEntry.reps [⟨"1.3.6.1.2.1.2.2.1.1.1", 2, Value.int 1⟩,
          ⟨"1.3.6.1.2.1.2.2.1.1.2", 2, Value.int 2⟩],
        BulkEntry.reps [⟨"1.3.6.1.2.1.2.2.1.2.1", 4, Value.str "eth0"⟩,
          ⟨"1.3.6.1.2.1.2.2.1.2.2", 4, Value.str "eth1"⟩]]
      (by decide) (by decide) (by decide) (by decide)⟩

/-! ## Session request lifecycle (session.mjs)

The registry operations, the retry timer, reply dispatch and cancellation
become explicit transitions on a SessionState.  Timing durations (timeout
values and the backoff multiplication of registerRequest) are not
modeled: the claims below concern which transitions occur, not when.
The asynchronous dgram.send completion is modeled by a sendOk flag on
each transition that transmits: on failure the JS send callback invokes
the request's response callback with the error and does not register. -/

/-- PduType.GetResponse (constants.mjs). -/
def PduTypeGetResponse : Nat := 162

/-- PduType.Report (constants.mjs). -/
def PduTypeReport : Nat := 168

/-- ResponseInvalidCode.EAuthFailure (constants.mjs). -/
def EAuthFailure : Nat := 5

/-- ResponseInvalidCode.EVersionNoMatch (constants.mjs). -/
def EVersionNoMatch : Nat := 9

/-- ResponseInvalidCode.ECommunityNoMatch (constants.mjs). -/
def ECommunityNoMatch : Nat := 10

/-- ResponseInvalidCode.EUnexpectedReport (constants.mjs). -/
def EUnexpectedReport : Nat := 11

/-- ResponseInvalidCode.EUnknownPduType (constants.mjs). -/
def EUnknownPduType : Nat := 3

/-- The fields of a protocol message the session engine inspects:
request id, version, community, PDU type, varbinds, the authoritative
engine boots/time of the security parameters, and the result of
message.processIncomingSecurity (secOk). -/
structure Message where
  id : Nat
  version : Nat
  community : String
  pduType : Nat
  varbinds : List Varbind
  engineBoots : Nat
  engineTime : Nat
  secOk : Bool
deriving DecidableEq, Repr

/-- A pending request record (the legacy Req object) as the registry
sees it: id, the stored outgoing message, the remaining retries, the
armed/cleared state of its timer, and the v3 report-handling fields. -/
structure PendingReq where
  id : Nat
  message : Message
  retries : Int
  timerArmed : Bool
  hasOriginalPdu : Bool
  allowReport : Bool
deriving DecidableEq, Repr

/-- Terminal outcomes delivered to a request's response callback.  The
content handed to the feed callback on a GetResponse is studied
separately (getBulkFeedCb above); here one response delivery is one
outcome. -/
inductive Outcome where
  | response
  | responseInvalid (msg : String) (code : Nat)
  | timedOut
  | sendError
  | cancelled
  | securityFailure
deriving DecidableEq, Repr

/-- Externally observable actions of one transition. -/
inductive OutEvent where
  | delivered (id : Nat) (outcome : Outcome)
  | sent (id : Nat) (message : Message)
deriving DecidableEq, Repr

/-- The session state the request lifecycle touches: the registry, the
JS reqCount counter, the ref/unref state of the UDP handle, the engine
parameters remembered from Report PDUs, and the session's configured
retry count (used when a Report resend builds a fresh Req). -/
structure SessionState where
  reqs : List PendingReq
  reqCount : Int
  refd : Bool
  secParams : Option (Nat × Nat)
  retriesSetting : Int
deriving DecidableEq, Repr

/-- The state of a freshly created session: no requests, count zero, and
the constructor's dgram.unref(). -/
def freshSession (retriesSetting : Int) : SessionState :=
  { reqs := [], reqCount := 0, refd := false, secParams := none,
    retriesSetting := retriesSetting }

/-- registerRequest (session.mjs): when the id is not yet registered,
store the record, ref the transport on a nonpositive count and bump the
count; in every case (re)arm the request's timer.  The already-registered
case only arises on the retry path, where the request being registered IS
the stored record, so re-arming updates that record. -/
def registerRequest (s : SessionState) (r : PendingReq) : SessionState :=
  if s.reqs.any (fun q => q.id = r.id) then
    { s with reqs := s.reqs.map (fun q =>
        if q.id = r.id then { q with timerArmed := true } else q) }
  else
    { s with
      reqs := s.reqs ++ [{ r with timerArmed := true }],
      refd := if s.reqCount ≤ 0 then true else s.refd,
      reqCount := s.reqCount + 1 }

/-- unregisterRequest (session.mjs): remove the record, clear its timer,
decrement the count and unref the transport when it reaches a
nonpositive value, returning the removed record; unknown ids leave the
state untouched and return nothing. -/
def unregisterRequest (s : SessionState) (id : Nat) :
    SessionState × Option PendingReq :=
  match s.reqs.find? (fun q => q.id = id) with
  | some req =>
    ({ s with
        reqs := s.reqs.filter (fun q => q.id ≠ id),
        reqCount := s.reqCount - 1,
        refd := if s.reqCount - 1 ≤ 0 then false else s.refd },
      some { req with timerArmed := false })
  | none => (s, none)

/-- send (session.mjs): transmit the stored message; on success the
asynchronous send callback registers the request (arming its timer), on
a send error it invokes the response callback with the error and does
not register. -/
def sendReq (s : SessionState) (r : PendingReq) (sendOk : Bool) :
    SessionState × List OutEvent :=
  if sendOk then (registerRequest s r, [OutEvent.sent r.id r.message])
  else (s, [OutEvent.delivered r.id Outcome.sendError])

/-- The timer callback armed by registerRequest: while retries remain,
post-decrement and resend the same stored message; otherwise unregister
and deliver the RequestTimedOutError.  The timer only fires while armed;
unregisterRequest's clearTimeout makes a stale fire impossible. -/
def timerFire (s : SessionState) (id : Nat) (sendOk : Bool) :
    SessionState × List OutEvent :=
  match s.reqs.find? (fun q => q.id = id) with
  | none => (s, [])
  | some req =>
    if req.timerArmed = false then (s, [])
    else if req.retries > 0 then
      let s2 := { s with reqs := s.reqs.map (fun q =>
        if q.id = id then
          { q with timerArmed := false, retries := q.retries - 1 }
        else q) }
      sendReq s2
        { req with timerArmed := false, retries := req.retries - 1 } sendOk
    else
      let (s2, _) := unregisterRequest s id
      (s2, [OutEvent.delivered id Outcome.timedOut])

/-- cancelRequests (session.mjs): unregister every outstanding request
and invoke its response callback with the given session-wide error, in
registry order.  The explicit bound equals the registry size. -/
def cancelLoop : Nat → SessionState → SessionState × List OutEvent
  | 0, s => (s, [])
  | fuel + 1, s =>
    match s.reqs with
    | [] => (s, [])
    | r :: _ =>
      let s2 := (unregisterRequest s r.id).1
      let rest := cancelLoop fuel s2
      (rest.1, OutEvent.delivered r.id Outcome.cancelled :: rest.2)

/-- cancelRequests (session.mjs). -/
def cancelRequests (s : SessionState) : SessionState × List OutEvent :=
  cancelLoop s.reqs.length s

/-- startsWith: oid.indexOf(base) === 0. -/
def startsWithStr (s pre : String) : Bool := pre.data.isPrefixOf s.data

/-- The trailing-instance strip oid.replace of userSecurityModelError:
remove a final .0 when present. -/
def stripDotZero (s : String) : String :=
  if ['.', '0'].isSuffixOf s.data then
    String.mk (s.data.take (s.data.length - 2))
  else s

/-- userSecurityModelError (session.mjs): strip the UsmStatsBase prefix
(its first occurrence) and a trailing .0, then translate through the
UsmStats table, falling back to the generic report message. -/
def userSecurityModelMsg (oid : String) : String :=
  (usmStatsLookup (stripDotZero (replaceFirst oid (UsmStatsBase ++ ".")))).getD
    "Unexpected Report PDU"

/-- What the Report branch does with the matched request. -/
inductive ReportAction where
  | deliverError (msg : String) (code : Nat)
  | resend
deriving DecidableEq, Repr

/-- The Report-PDU branch of onMsg for a non-proxy session: a request
that did not permit a report fails (named USM error when the first
varbind OID starts with the UsmStats base, generic otherwise); a request
carrying its original PDU with allowReport set is re-sent. -/
def onReport (req : PendingReq) (m : Message) : ReportAction :=
  if req.hasOriginalPdu = false ∨ req.allowReport = false then
    match m.varbinds.head? with
    | some v =>
      if startsWithStr v.oid UsmStatsBase then
        ReportAction.deliverError (userSecurityModelMsg v.oid) EAuthFailure
      else ReportAction.deliverError "Unexpected Report PDU" EUnexpectedReport
    | none => ReportAction.deliverError "Unexpected Report PDU" EUnexpectedReport
  else ReportAction.resend

/-- onMsg (session.mjs): unregister the matching request FIRST, then
validate security, version and community, then dispatch on the PDU type.
A Report stores the engine parameters and either fails the request or
re-sends its original PDU under the fresh parameters (same id, the
allowReport of the new attempt set exactly when the report carried a
zeroed boots/time pair); a GetResponse reaches the request's feed path
(one delivery); anything else is an unknown-PDU failure.  The message
texts of the version/community failures are abbreviated. -/
def onMsg (s : SessionState) (m : Message) (sendOk : Bool) :
    SessionState × List OutEvent :=
  match unregisterRequest s m.id with
  | (s1, none) => (s1, [])
  | (s1, some req) =>
    if m.secOk = false then
      (s1, [OutEvent.delivered req.id Outcome.securityFailure])
    else if m.version ≠ req.message.version then
      (s1, [OutEvent.delivered req.id
        (Outcome.responseInvalid "Version no match" EVersionNoMatch)])
    else if m.community ≠ req.message.community then
      (s1, [OutEvent.delivered req.id
        (Outcome.responseInvalid "Community no match" ECommunityNoMatch)])
    else if m.pduType = PduTypeReport then
      let s2 := { s1 with secParams := some (m.engineBoots, m.engineTime) }
      match onReport req m with
      | ReportAction.deliverError msg code =>
        (s2, [OutEvent.delivered req.id (Outcome.responseInvalid msg code)])
      | ReportAction.resend =>
        sendReq s2
          { id := req.id, message := req.message,
            retries := s.retriesSetting, timerArmed := false,
            hasOriginalPdu := true,
            allowReport := m.engineBoots = 0 ∧ m.engineTime = 0 } sendOk
    else if m.pduType = PduTypeGetResponse then
      (s1, [OutEvent.delivered req.id Outcome.response])
    else
      (s1, [OutEvent.delivered req.id
        (Outcome.responseInvalid "Unknown PDU type" EUnknownPduType)])

/-- The scheduled events a session reacts to. -/
inductive SessionEvent where
  | msgArrive (m : Message) (sendOk : Bool)
  | timerExpire (id : Nat) (sendOk : Bool)
  | socketClosed
deriving DecidableEq, Repr

/-- One event-loop step. -/
def sessionStep (s : SessionState) : SessionEvent → SessionState × List OutEvent
  | SessionEvent.msgArrive m sendOk => onMsg s m sendOk
  | SessionEvent.timerExpire id sendOk => timerFire s id sendOk
  | SessionEvent.socketClosed => cancelRequests s

/-- Run a trace of events, concatenating the observable actions. -/
def sessionRun (s : SessionState) :
    List SessionEvent → SessionState × List OutEvent
  | [] => (s, [])
  | e :: rest =>
    let p := sessionStep s e
    let q := sessionRun p.1 rest
    (q.1, p.2 ++ q.2)

/-- Is this action a terminal-outcome delivery to the given request id? -/
def isDeliveryTo (id : Nat) : OutEvent → Bool
  | OutEvent.delivered i _ => i = id
  | OutEvent.sent _ _ => false

/-- Number of terminal outcomes delivered to the id. -/
def deliveredCount (id : Nat) (evs : List OutEvent) : Nat :=
  (evs.filter (isDeliveryTo id)).length

/-- 1 when the id is registered, else 0. -/
def registeredInd (s : SessionState) (id : Nat) : Nat :=
  if s.reqs.any (fun q => q.id = id) then 1 else 0

/-- Every transmission in the trace succeeds. -/
def sendsOk : List SessionEvent → Bool
  | [] => true
  | SessionEvent.msgArrive _ ok :: rest => ok && sendsOk rest
  | SessionEvent.timerExpire _ ok :: rest => ok && sendsOk rest
  | SessionEvent.socketClosed :: rest => sendsOk rest

/-! ## C3: the transport ref/unref invariant -/

/-- A call sequence against the registry, as in C3. -/
inductive RegOp where
  | register (r : PendingReq)
  | unregister (id : Nat)

/-- Run a register/unregister call sequence. -/
def runRegOps : SessionState → List RegOp → SessionState
  | s, [] => s
  | s, RegOp.register r :: rest => runRegOps (registerRequest s r) rest
  | s, RegOp.unregister id :: rest =>
    runRegOps (unregisterRequest s id).1 rest

/-- The registry bookkeeping invariant: the JS counter equals the number
of stored requests, ids are unique, and the transport is ref'd exactly
while the count is positive. -/
def RegInvariant (s : SessionState) : Prop :=
  s.reqCount = s.reqs.length ∧ (s.reqs.map PendingReq.id).Nodup ∧
    (s.refd = true ↔ 0 < s.reqCount)

theorem registerRequest_invariant {s : SessionState} (r : PendingReq)
    (h : RegInvariant s) : RegInvariant (registerRequest s r) := by
  obtain ⟨hcount, hnodup, href⟩ := h
  unfold registerRequest
  by_cases hany : s.reqs.any (fun q => q.id = r.id)
  · rw [if_pos hany]
    have hids : (s.reqs.map (fun q =>
        if q.id = r.id then { q with timerArmed := true } else q)).map
          PendingReq.id = s.reqs.map PendingReq.id := by
      rw [List.map_map]
      apply List.map_congr_left
      intro q _
      by_cases hq : q.id = r.id
      · simp [hq]
      · simp [hq]
    refine ⟨by simpa using hcount, ?_, by simpa using href⟩
    simpa [hids] using hnodup
  · rw [if_neg hany]
    refine ⟨by simp [hcount], ?_, ?_⟩
    · rw [List.map_append]
      rw [List.nodup_append]
      refine ⟨hnodup, by simp, ?_⟩
      intro a ha
      simp only [List.map_cons, List.map_nil, List.mem_singleton]
      intro hcon
      apply hany
      rw [List.any_eq_true]
      obtain ⟨q, hq, hqid⟩ := List.mem_map.mp ha
      exact ⟨q, hq, by simp [hqid, hcon]⟩
    · dsimp only
      by_cases hc : s.reqCount ≤ 0
      · rw [if_pos hc]
        constructor
        · intro _
          omega
        · intro _
          rfl
      · rw [if_neg hc]
        constructor
        · intro _
          omega
        · intro _
          exact href.mpr (by omega)

theorem find?_eq_some_of_any {s : SessionState} {id : Nat}
    (h : s.reqs.any (fun q => q.id = id)) :
    ∃ req, s.reqs.find? (fun q => q.id = id) = some req := by
  rcases hf : s.reqs.find? (fun q => q.id = id) with _ | req
  · rw [List.find?_eq_none] at hf
    rw [List.any_eq_true] at h
    obtain ⟨q, hq, hqid⟩ := h
    exact absurd hqid (by simpa using hf q hq)
  · exact ⟨req, hf⟩

theorem unregisterRequest_found {s : SessionState} {id : Nat}
    {req : PendingReq}
    (hf : s.reqs.find? (fun q => q.id = id) = some req) :
    unregisterRequest s id =
      ({ s with
          reqs := s.reqs.filter (fun q => q.id ≠ id),
          reqCount := s.reqCount - 1,
          refd := if s.reqCount - 1 ≤ 0 then false else s.refd },
        some { req with timerArmed := false }) := by
  unfold unregisterRequest
  rw [hf]

theorem unregisterRequest_none {s : SessionState} {id : Nat}
    (hf : s.reqs.find? (fun q => q.id = id) = none) :
    unregisterRequest s id = (s, none) := by
  unfold unregisterRequest
  rw [hf]

theorem filter_ne_length_of_nodup {l : List PendingReq} {id : Nat}
    {req : PendingReq} (hnodup : (l.map PendingReq.id).Nodup)
    (hf : l.find? (fun q => q.id = id) = some req) :
    (l.filter (fun q => q.id ≠ id)).length = l.length - 1 := by
  induction l with
  | nil => simp [List.find?] at hf
  | cons q0 rest ih =>
    by_cases h0 : q0.id = id
    · have hnotin : ∀ q ∈ rest, q.id ≠ id := by
        intro q hq hcon
        have : q0.id ∈ rest.map PendingReq.id :=
          List.mem_map.mpr ⟨q, hq, by rw [hcon, h0]⟩
        simp only [List.map_cons, List.nodup_cons] at hnodup
        exact hnodup.1 this
      rw [List.filter_cons, if_neg (by simp [h0])]
      rw [List.filter_eq_self.mpr (by intro q hq; simpa using hnotin q hq)]
      simp
    · have hf' : rest.find? (fun q => q.id = id) = some req := by
        rw [List.find?_cons] at hf
        simpa [h0] using hf
      have hmem : req ∈ rest := List.mem_of_find?_eq_some hf'
      have hlen : 1 ≤ rest.length :=
        List.length_pos.mpr (List.ne_nil_of_mem hmem)
      have hrest : (rest.map PendingReq.id).Nodup := by
        simp only [List.map_cons, List.nodup_cons] at hnodup
        exact hnodup.2
      rw [List.filter_cons, if_pos (by simpa using h0)]
      simp only [List.length_cons]
      rw [ih hrest hf']
      omega

theorem unregisterRequest_invariant {s : SessionState} (id : Nat)
    (h : RegInvariant s) : RegInvariant (unregisterRequest s id).1 := by
  obtain ⟨hcount, hnodup, href⟩ := h
  rcases hf : s.reqs.find? (fun q => q.id = id) with _ | req
  · rw [unregisterRequest_none hf]
    exact ⟨hcount, hnodup, href⟩
  · rw [unregisterRequest_found hf]
    have hmem : req ∈ s.reqs := List.mem_of_find?_eq_some hf
    have hlen : 1 ≤ s.reqs.length :=
      List.length_pos.mpr (List.ne_nil_of_mem hmem)
    have hflt := filter_ne_length_of_nodup hnodup hf
    refine ⟨?_, ?_, ?_⟩
    · dsimp only
      rw [hflt]
      omega
    · exact List.Nodup.sublist
        (List.Sublist.map PendingReq.id (List.filter_sublist _)) hnodup
    · dsimp only
      by_cases hc : s.reqCount - 1 ≤ 0
      · rw [if_pos hc]
        constructor
        · intro hcon
          exact absurd hcon (by simp)
        · intro hpos
          omega
      · rw [if_neg hc]
        constructor
        · intro _
          omega
        · intro _
          exact href.mpr (by omega)

theorem runRegOps_invariant (ops : List RegOp) :
    ∀ s : SessionState, RegInvariant s → RegInvariant (runRegOps s ops) := by
  induction ops with
  | nil => intro s h; exact h
  | cons op rest ih =>
    intro s h
    cases op with
    | register r => exact ih _ (registerRequest_invariant r h)
    | unregister id => exact ih _ (unregisterRequest_invariant id h)

/-- C3: after any sequence of registerRequest/unregisterRequest calls on
a fresh session, the transport handle is ref'd exactly when the
outstanding count is positive (and the count equals the number of stored
requests). -/
theorem transport_ref_iff_outstanding (d : Int) (ops : List RegOp) :
    ((runRegOps (freshSession d) ops).refd = true ↔
        0 < (runRegOps (freshSession d) ops).reqCount) ∧
      (runRegOps (freshSession d) ops).reqCount =
        (runRegOps (freshSession d) ops).reqs.length := by
  have h := runRegOps_invariant ops (freshSession d)
    ⟨by simp [freshSession], by simp [freshSession], by simp [freshSession]⟩
  exact ⟨h.2.2, h.1⟩

/-! ## C4: timer fire, retry and timeout -/

/-- C4: with a single armed pending request, a timer fire with retries
exhausted (retries = 0) delivers exactly one RequestTimedOutError and
leaves the registry empty; with retries remaining and a successful
transmission, the retry counter is decremented and the identical stored
message (same id, same body) is resent, with no outcome delivered. -/
theorem timer_retry_behavior (r : PendingReq) (cnt d : Int) (rf : Bool)
    (sp : Option (Nat × Nat)) (sendOk : Bool) (harm : r.timerArmed = true) :
    (r.retries = 0 →
      timerFire { reqs := [r], reqCount := cnt, refd := rf, secParams := sp, retriesSetting := d } r.id sendOk =
        ({ reqs := [], reqCount := cnt - 1, refd := if cnt - 1 ≤ 0 then false else rf, secParams := sp, retriesSetting := d },
          [OutEvent.delivered r.id Outcome.timedOut])) ∧
    (0 < r.retries → sendOk = true →
      timerFire { reqs := [r], reqCount := cnt, refd := rf, secParams := sp, retriesSetting := d } r.id sendOk =
        ({ reqs := [{ r with retries := r.retries - 1, timerArmed := true }], reqCount := cnt, refd := rf, secParams := sp, retriesSetting := d },
          [OutEvent.sent r.id r.message])) := by
  have hfind : ([r].find? (fun q => q.id = r.id)) = some r := by
    simp [List.find?_cons]
  constructor
  · intro hr
    unfold timerFire
    dsimp only
    rw [hfind]
    simp only [harm, hr]
    rw [if_neg (by simp), if_neg (by omega)]
    rw [unregisterRequest_found (s := { reqs := [r], reqCount := cnt, refd := rf, secParams := sp, retriesSetting := d }) hfind]
    simp [List.filter_cons]
  · intro hr hok
    unfold timerFire
    dsimp only
    rw [hfind]
    simp only [harm]
    rw [if_neg (by simp), if_pos hr]
    simp only [sendReq, hok, if_pos rfl]
    unfold registerRequest
    dsimp only
    rw [if_pos (by simp [List.any_cons])]
    simp [List.map_cons]

/-- A concrete outgoing message used by witnesses. -/
def witnessMessage (id : Nat) : Message :=
  { id := id, version := 1, community := "public", pduType := 160, varbinds := [], engineBoots := 0, engineTime := 0, secOk := true }

/-- A concrete pending request used by witnesses. -/
def witnessReq (id : Nat) (retries : Int) : PendingReq :=
  { id := id, message := witnessMessage id, retries := retries, timerArmed := true, hasOriginalPdu := false, allowReport := false }

/-- C4 witness: a request with retries = 0 times out and empties the
registry, and a request with one retry left is resent unchanged. -/
theorem timer_retry_behavior_witness :
    (timerFire { reqs := [witnessReq 7 0], reqCount := 1, refd := true, secParams := none, retriesSetting := 1 } 7 true =
      ({ reqs := [], reqCount := 0, refd := false, secParams := none, retriesSetting := 1 },
        [OutEvent.delivered 7 Outcome.timedOut])) ∧
    (timerFire { reqs := [witnessReq 8 1], reqCount := 1, refd := true, secParams := none, retriesSetting := 1 } 8 true =
      ({ reqs := [witnessReq 8 0], reqCount := 1, refd := true, secParams := none, retriesSetting := 1 },
        [OutEvent.sent 8 (witnessMessage 8)])) := by
  constructor
  · have h := (timer_retry_behavior (witnessReq 7 0) 1 1 true none true rfl).1 rfl
    simpa using h
  · have h := (timer_retry_behavior (witnessReq 8 1) 1 1 true none true rfl).2 (by decide) rfl
    simpa [witnessReq] using h

/-! ## C2: at most one terminal outcome per request id -/

/-- Uniqueness of registered request ids. -/
def idsNodup (s : SessionState) : Prop := (s.reqs.map PendingReq.id).Nodup

theorem any_filter_ne_self (l : List PendingReq) (id : Nat) :
    (l.filter (fun q => q.id ≠ id)).any (fun q => q.id = id) = false := by
  rw [Bool.eq_false_iff]
  intro hcon
  rw [List.any_eq_true] at hcon
  obtain ⟨q, hq, hqid⟩ := hcon
  rw [List.mem_filter] at hq
  simp only [decide_eq_true_eq] at hq hqid
  exact hq.2 hqid

theorem any_filter_ne_other (l : List PendingReq) (id id2 : Nat)
    (h : id2 ≠ id) :
    (l.filter (fun q => q.id ≠ id)).any (fun q => q.id = id2) =
      l.any (fun q => q.id = id2) := by
  induction l with
  | nil => simp
  | cons q rest ih =>
    by_cases hq : q.id = id
    · rw [List.filter_cons, if_neg (by simp [hq]), List.any_cons]
      rw [ih]
      have : ¬ q.id = id2 := by omega
      simp [this]
    · rw [List.filter_cons, if_pos (by simpa using hq), List.any_cons,
        List.any_cons, ih]

theorem any_map_id_pred (l : List PendingReq) (u : PendingReq → PendingReq)
    (hu : ∀ q, (u q).id = q.id) (id2 : Nat) :
    (l.map u).any (fun q => q.id = id2) = l.any (fun q => q.id = id2) := by
  induction l with
  | nil => simp
  | cons q rest ih => simp [List.any_cons, ih, hu q]

theorem nodup_map_update (l : List PendingReq) (u : PendingReq → PendingReq)
    (hu : ∀ q, (u q).id = q.id)
    (h : (l.map PendingReq.id).Nodup) : ((l.map u).map PendingReq.id).Nodup := by
  have : (l.map u).map PendingReq.id = l.map PendingReq.id := by
    rw [List.map_map]
    exact List.map_congr_left (fun q _ => hu q)
  rw [this]
  exact h

theorem registerRequest_nodup {s : SessionState} (r : PendingReq)
    (h : idsNodup s) : idsNodup (registerRequest s r) := by
  unfold registerRequest idsNodup
  by_cases hany : s.reqs.any (fun q => q.id = r.id)
  · rw [if_pos hany]
    exact nodup_map_update _ _ (fun q => by split <;> rfl) h
  · rw [if_neg hany]
    dsimp only
    rw [List.map_append, List.nodup_append]
    refine ⟨h, by simp, ?_⟩
    intro a ha
    simp only [List.map_cons, List.map_nil, List.mem_singleton]
    intro hcon
    apply hany
    rw [List.any_eq_true]
    obtain ⟨q, hq, hqid⟩ := List.mem_map.mp ha
    exact ⟨q, hq, by simp [hqid, hcon]⟩

theorem registeredInd_def (s : SessionState) (id : Nat) :
    registeredInd s id =
      if s.reqs.any (fun q => q.id = id) then 1 else 0 := rfl

theorem registeredInd_register_self (s : SessionState) (r : PendingReq)
    (id : Nat) (h : id = r.id) :
    registeredInd (registerRequest s r) id = 1 := by
  subst h
  unfold registerRequest registeredInd
  by_cases hany : s.reqs.any (fun q => q.id = r.id)
  · rw [if_pos hany]
    dsimp only
    rw [any_map_id_pred _ _ (fun q => by split <;> rfl)]
    rw [if_pos hany]
  · rw [if_neg hany]
    dsimp only
    rw [if_pos (by simp [List.any_append])]

theorem registeredInd_register_other (s : SessionState) (r : PendingReq)
    (id : Nat) (h : id ≠ r.id) :
    registeredInd (registerRequest s r) id = registeredInd s id := by
  unfold registerRequest registeredInd
  by_cases hany : s.reqs.any (fun q => q.id = r.id)
  · rw [if_pos hany]
    dsimp only
    rw [any_map_id_pred _ _ (fun q => by split <;> rfl)]
  · rw [if_neg hany]
    dsimp only
    rw [List.any_append]
    have : ¬ ({ r with timerArmed := true } : PendingReq).id = id := by
      dsimp only
      omega
    simp [this]

theorem registeredInd_found_self {s : SessionState} {id : Nat}
    {req : PendingReq}
    (hf : s.reqs.find? (fun q => q.id = id) = some req) :
    registeredInd s id = 1 := by
  unfold registeredInd
  have hmem := List.mem_of_find?_eq_some hf
  have hpred := List.find?_some hf
  rw [if_pos (List.any_eq_true.mpr ⟨req, hmem, hpred⟩)]

theorem deliveredCount_append (id : Nat) (a b : List OutEvent) :
    deliveredCount id (a ++ b) = deliveredCount id a + deliveredCount id b := by
  unfold deliveredCount
  rw [List.filter_append, List.length_append]

theorem deliveredCount_nil (id : Nat) : deliveredCount id [] = 0 := rfl

theorem deliveredCount_delivered (id tid : Nat) (o : Outcome) :
    deliveredCount id [OutEvent.delivered tid o] =
      if tid = id then 1 else 0 := by
  unfold deliveredCount isDeliveryTo
  by_cases h : tid = id
  · simp [h]
  · simp [h]

theorem deliveredCount_sent (id tid : Nat) (m : Message) :
    deliveredCount id [OutEvent.sent tid m] = 0 := by
  simp [deliveredCount, isDeliveryTo]

theorem idsNodup_filter (s : SessionState) (p : PendingReq → Bool)
    (h : idsNodup s) (cnt : Int) (rf : Bool) (sp : Option (Nat × Nat))
    (d : Int) :
    idsNodup { reqs := s.reqs.filter p, reqCount := cnt, refd := rf, secParams := sp, retriesSetting := d } := by
  unfold idsNodup at h ⊢
  exact List.Nodup.sublist
    (List.Sublist.map PendingReq.id (List.filter_sublist _)) h

theorem onMsg_delivery_bound (s : SessionState) (m : Message)
    (sendOk : Bool) (id : Nat) (hwf : idsNodup s) :
    deliveredCount id (onMsg s m sendOk).2 +
        registeredInd (onMsg s m sendOk).1 id ≤ registeredInd s id ∧
      idsNodup (onMsg s m sendOk).1 := by
  rcases hf : s.reqs.find? (fun q => q.id = m.id) with _ | req
  · unfold onMsg
    rw [unregisterRequest_none hf]
    dsimp only
    exact ⟨by rw [deliveredCount_nil]; omega, hwf⟩
  · have hreqid : req.id = m.id := by
      have := List.find?_some hf
      simpa using this
    have hself : registeredInd s m.id = 1 := registeredInd_found_self hf
    unfold onMsg
    rw [unregisterRequest_found hf]
    dsimp only
    generalize (if s.reqCount - 1 ≤ 0 then false else s.refd) = rf1
    set s1 : SessionState := { reqs := s.reqs.filter (fun q => q.id ≠ m.id), reqCount := s.reqCount - 1, refd := rf1, secParams := s.secParams, retriesSetting := s.retriesSetting } with hs1
    have hids1 : idsNodup s1 := idsNodup_filter s _ hwf _ _ _ _
    have hr1self : registeredInd s1 m.id = 0 := by
      unfold registeredInd
      rw [hs1]
      dsimp only
      rw [any_filter_ne_self]
      simp
    have hr1other : ∀ id2, id2 ≠ m.id →
        registeredInd s1 id2 = registeredInd s id2 := by
      intro id2 h2
      unfold registeredInd
      rw [hs1]
      dsimp only
      rw [any_filter_ne_other _ _ _ h2]
    have hbound1 : ∀ o : Outcome,
        deliveredCount id [OutEvent.delivered req.id o] +
            registeredInd s1 id ≤ registeredInd s id := by
      intro o
      rw [deliveredCount_delivered, hreqid]
      by_cases hid : m.id = id
      · rw [if_pos hid, ← hid, hr1self, hself]
      · rw [if_neg hid, hr1other id (by omega)]
        omega
    have hbound2 : ∀ o : Outcome,
        deliveredCount id [OutEvent.delivered req.id o] +
            registeredInd { s1 with secParams := some (m.engineBoots, m.engineTime) } id ≤
          registeredInd s id := by
      intro o
      have : registeredInd { s1 with secParams := some (m.engineBoots, m.engineTime) } id = registeredInd s1 id := rfl
      rw [this]
      exact hbound1 o
    have hids2 : idsNodup { s1 with secParams := some (m.engineBoots, m.engineTime) } := hids1
    split
    · exact ⟨hbound1 _, hids1⟩
    · split
      · exact ⟨hbound1 _, hids1⟩
      · split
        · exact ⟨hbound1 _, hids1⟩
        · split
          · -- Report branch
            split
            · exact ⟨hbound2 _, hids2⟩
            · -- resend through sendReq
              unfold sendReq
              split
              · -- send succeeded: re-registered, nothing delivered
                dsimp only
                constructor
                · rw [deliveredCount_sent]
                  by_cases hid : id = m.id
                  · subst hid
                    rw [registeredInd_register_self _ _ _
                      (by dsimp only; omega)]
                    rw [hself]
                  · rw [registeredInd_register_other _ _ _
                      (by dsimp only; omega)]
                    rw [registeredInd_def, registeredInd_def]
                    dsimp only
                    rw [any_filter_ne_other _ _ _ hid]
                    omega
                · exact registerRequest_nodup _ hids2
              · -- send failed: one delivery, entry stays unregistered
                dsimp only
                constructor
                · rw [deliveredCount_delivered]
                  by_cases hid2 : req.id = id
                  · rw [if_pos hid2]
                    rw [show id = m.id by omega]
                    rw [registeredInd_def]
                    dsimp only
                    rw [any_filter_ne_self]
                    rw [hself]
                    simp
                  · rw [if_neg hid2]
                    rw [registeredInd_def, registeredInd_def]
                    dsimp only
                    rw [any_filter_ne_other _ _ _ (by omega)]
                    omega
                · exact hids2
          · split
            · exact ⟨hbound1 _, hids1⟩
            · exact ⟨hbound1 _, hids1⟩

theorem deliveredCount_cons_delivered (id tid : Nat) (o : Outcome)
    (evs : List OutEvent) :
    deliveredCount id (OutEvent.delivered tid o :: evs) =
      (if tid = id then 1 else 0) + deliveredCount id evs := by
  unfold deliveredCount isDeliveryTo
  rw [List.filter_cons]
  by_cases h : tid = id
  · simp [h, Nat.add_comm]
  · simp [h]

theorem timerFire_delivery_bound (s : SessionState) (tid : Nat) (id : Nat)
    (hwf : idsNodup s) :
    deliveredCount id (timerFire s tid true).2 +
        registeredInd (timerFire s tid true).1 id ≤ registeredInd s id ∧
      idsNodup (timerFire s tid true).1 := by
  rcases hfind : s.reqs.find? (fun q => q.id = tid) with _ | req
  · unfold timerFire
    rw [hfind]
    refine ⟨?_, hwf⟩
    simp [deliveredCount]
  · have hreqid : req.id = tid := by
      have := List.find?_some hfind
      simpa using this
    have hpred := List.find?_some hfind
    have hany : s.reqs.any (fun q => q.id = tid) = true :=
      List.any_eq_true.mpr ⟨req, List.mem_of_find?_eq_some hfind, hpred⟩
    unfold timerFire
    rw [hfind]
    dsimp only
    split
    · refine ⟨?_, hwf⟩
      simp [deliveredCount]
    · split
      · -- retry: map-update then re-register, nothing delivered
        unfold sendReq
        rw [if_pos rfl]
        dsimp only
        have hupd : ∀ q : PendingReq,
            ((if q.id = tid then
                { q with timerArmed := false, retries := q.retries - 1 }
              else q) : PendingReq).id = q.id := by
          intro q
          split <;> rfl
        constructor
        · rw [deliveredCount_sent]
          have hany2 : (s.reqs.map (fun q =>
              if q.id = tid then
                { q with timerArmed := false, retries := q.retries - 1 }
              else q)).any (fun q => q.id = ({ req with timerArmed := false, retries := req.retries - 1 } : PendingReq).id) = true := by
            dsimp only
            rw [any_map_id_pred _ _ hupd, hreqid]
            exact hany
          unfold registerRequest
          rw [if_pos hany2]
          dsimp only
          rw [registeredInd_def, registeredInd_def]
          dsimp only
          rw [any_map_id_pred _ _ (fun q => by split <;> rfl)]
          rw [any_map_id_pred _ _ hupd]
          omega
        · apply registerRequest_nodup
          exact nodup_map_update _ _ hupd hwf
      · -- retries exhausted: unregister and deliver the timeout
        rw [unregisterRequest_found hfind]
        dsimp only
        constructor
        · rw [deliveredCount_delivered]
          by_cases hid : tid = id
          · rw [if_pos hid]
            rw [registeredInd_def]
            dsimp only
            rw [show id = tid by omega]
            rw [any_filter_ne_self]
            rw [registeredInd_def, if_pos hany]
            simp
          · rw [if_neg hid]
            rw [registeredInd_def, registeredInd_def]
            dsimp only
            rw [any_filter_ne_other _ _ _ (by omega)]
            omega
        · exact idsNodup_filter s _ hwf _ _ _ _

theorem cancelLoop_bound :
    ∀ (fuel : Nat) (s : SessionState) (id : Nat), idsNodup s →
      deliveredCount id (cancelLoop fuel s).2 +
          registeredInd (cancelLoop fuel s).1 id ≤ registeredInd s id ∧
        idsNodup (cancelLoop fuel s).1 := by
  intro fuel
  induction fuel with
  | zero =>
    intro s id hwf
    refine ⟨?_, hwf⟩
    simp [cancelLoop, deliveredCount]
  | succ fuel ih =>
    intro s id hwf
    unfold cancelLoop
    cases hreqs : s.reqs with
    | nil =>
      refine ⟨?_, hwf⟩
      simp [deliveredCount]
    | cons r rest =>
      have hfind : s.reqs.find? (fun q => q.id = r.id) = some r := by
        rw [hreqs]
        simp [List.find?_cons]
      dsimp only
      rw [unregisterRequest_found hfind]
      dsimp only
      have hnodup2 : idsNodup { s with reqs := s.reqs.filter (fun q => q.id ≠ r.id), reqCount := s.reqCount - 1, refd := if s.reqCount - 1 ≤ 0 then false else s.refd } :=
        idsNodup_filter s _ hwf _ _ _ _
      obtain ⟨hbound, hnodup3⟩ := ih _ id hnodup2
      refine ⟨?_, hnodup3⟩
      rw [deliveredCount_cons_delivered]
      by_cases hid : r.id = id
      · rw [if_pos hid]
        have h0 : registeredInd { s with reqs := s.reqs.filter (fun q => q.id ≠ r.id), reqCount := s.reqCount - 1, refd := if s.reqCount - 1 ≤ 0 then false else s.refd } id = 0 := by
          rw [registeredInd_def]
          dsimp only
          rw [show id = r.id by omega]
          rw [any_filter_ne_self]
          simp
        have h1 : registeredInd s id = 1 := by
          rw [registeredInd_def, hreqs]
          rw [if_pos (by simp [List.any_cons, hid])]
        rw [h0] at hbound
        omega
      · rw [if_neg hid]
        have heq : registeredInd { s with reqs := s.reqs.filter (fun q => q.id ≠ r.id), reqCount := s.reqCount - 1, refd := if s.reqCount - 1 ≤ 0 then false else s.refd } id = registeredInd s id := by
          rw [registeredInd_def, registeredInd_def]
          dsimp only
          rw [any_filter_ne_other _ _ _ (by omega)]
        rw [heq] at hbound
        omega

theorem sessionRun_delivery_bound (tr : List SessionEvent) :
    ∀ (s : SessionState) (id : Nat), idsNodup s → sendsOk tr = true →
      deliveredCount id (sessionRun s tr).2 +
          registeredInd (sessionRun s tr).1 id ≤ registeredInd s id ∧
        idsNodup (sessionRun s tr).1 := by
  induction tr with
  | nil =>
    intro s id hwf _
    refine ⟨?_, hwf⟩
    simp [sessionRun, deliveredCount]
  | cons e rest ih =>
    intro s id hwf hok
    have hrest : sendsOk rest = true := by
      cases e with
      | msgArrive m ok =>
        unfold sendsOk at hok
        rw [Bool.and_eq_true] at hok
        exact hok.2
      | timerExpire tid ok =>
        unfold sendsOk at hok
        rw [Bool.and_eq_true] at hok
        exact hok.2
      | socketClosed =>
        unfold sendsOk at hok
        exact hok
    have hstep : deliveredCount id (sessionStep s e).2 +
        registeredInd (sessionStep s e).1 id ≤ registeredInd s id ∧
          idsNodup (sessionStep s e).1 := by
      cases e with
      | msgArrive m ok => exact onMsg_delivery_bound s m ok id hwf
      | timerExpire tid ok =>
        have hok1 : ok = true := by
          unfold sendsOk at hok
          rw [Bool.and_eq_true] at hok
          exact hok.1
        subst hok1
        exact timerFire_delivery_bound s tid id hwf
      | socketClosed => exact cancelLoop_bound _ s id hwf
    unfold sessionRun
    dsimp only
    rw [deliveredCount_append]
    obtain ⟨hb2, hn2⟩ := ih (sessionStep s e).1 id hstep.2 hrest
    exact ⟨by omega, hn2⟩

/-- C2 amended: along any event trace in which every (re)transmission
succeeds, at most one terminal outcome is ever delivered to a request
id's response callback, because the reply-dispatch, retry-exhausted
timeout and session-wide cancellation paths all remove the registry
entry before invoking the callback.  (A failed retransmission delivers a
send error WITHOUT removing the entry, which is why the success
hypothesis is needed; see the counterexample.) -/
theorem at_most_one_terminal_outcome (s : SessionState)
    (tr : List SessionEvent) (id : Nat) (hwf : idsNodup s)
    (hok : sendsOk tr = true) :
    deliveredCount id (sessionRun s tr).2 ≤ 1 := by
  have h := (sessionRun_delivery_bound tr s id hwf hok).1
  have hle : registeredInd s id ≤ 1 := by
    rw [registeredInd_def]
    split <;> omega
  omega

/-- C2 counterexample: with one registered request (retries = 1, timer
armed), a timer fire whose retransmission FAILS delivers a send error
while leaving the entry registered, and a subsequent matching reply
delivers a second outcome: two terminal outcomes for one registered id. -/
theorem double_delivery_on_send_failure :
    deliveredCount 1 (sessionRun { reqs := [{ id := 1, message := { id := 1, version := 1, community := "public", pduType := 162, varbinds := [], engineBoots := 0, engineTime := 0, secOk := true }, retries := 1, timerArmed := true, hasOriginalPdu := false, allowReport := false }], reqCount := 1, refd := true, secParams := none, retriesSetting := 1 } [SessionEvent.timerExpire 1 false, SessionEvent.msgArrive { id := 1, version := 1, community := "public", pduType := 162, varbinds := [], engineBoots := 0, engineTime := 0, secOk := true } true]).2 = 2 ∧
      registeredInd { reqs := [{ id := 1, message := { id := 1, version := 1, community := "public", pduType := 162, varbinds := [], engineBoots := 0, engineTime := 0, secOk := true }, retries := 1, timerArmed := true, hasOriginalPdu := false, allowReport := false }], reqCount := 1, refd := true, secParams := none, retriesSetting := 1 } 1 = 1 := by
  constructor
  · decide
  · decide

/-! ## C5: Report-PDU handling -/

theorem startsWithStr_append (pre t : String) :
    startsWithStr (pre ++ t) pre = true := by
  unfold startsWithStr
  rw [String.data_append]
  simp [List.isPrefixOf_iff_prefix]

theorem stripDotZero_append (k : String) : stripDotZero (k ++ ".0") = k := by
  have h2 : (".0" : String).data = ['.', '0'] := rfl
  have hdata : ((k ++ ".0" : String)).data = k.data ++ ['.', '0'] := by
    rw [String.data_append, h2]
  unfold stripDotZero
  rw [hdata]
  rw [if_pos (by simp [List.isSuffixOf_iff_suffix])]
  apply stringDataEq
  show (k.data ++ ['.', '0']).take ((k.data ++ ['.', '0']).length - 2) = k.data
  have hlen : (k.data ++ ['.', '0']).length - 2 = k.data.length := by
    rw [List.length_append]
    simp
  rw [hlen, List.take_left]

theorem usmStatsLookup_key_length {k name : String}
    (h : usmStatsLookup k = some name) : k.data.length = 1 := by
  unfold usmStatsLookup at h
  rcases hmap : UsmStats.find? (fun p => p.1 = k) with _ | pr
  · rw [hmap] at h
    exact absurd h (by simp)
  · have hpred := List.find?_some hmap
    have hk : pr.1 = k := by simpa using hpred
    have hmem := List.mem_of_find?_eq_some hmap
    rw [← hk]
    unfold UsmStats at hmem
    simp only [List.mem_cons, List.not_mem_nil, or_false] at hmem
    rcases hmem with h1 | h1 | h1 | h1 | h1 | h1 <;> rw [h1] <;> decide

theorem stripDotZero_shape (r : String) :
    r.data.length = (stripDotZero r).data.length ∨
      r.data.length = (stripDotZero r).data.length + 2 := by
  unfold stripDotZero
  split
  · rename_i hsuf
    right
    have hle : 2 ≤ r.data.length := by
      have h2 := List.IsSuffix.length_le (List.isSuffixOf_iff_suffix.mp hsuf)
      simpa using h2
    have hk : (String.mk (r.data.take (r.data.length - 2))).data =
        r.data.take (r.data.length - 2) := rfl
    rw [hk, List.length_take]
    omega
  · left
    rfl

theorem stripFirstOcc_cases (pat : List Char) (s : List Char) :
    stripFirstOcc pat s = s ∨
      ∃ a b, s = a ++ pat ++ b ∧ stripFirstOcc pat s = a ++ b := by
  induction s with
  | nil => exact Or.inl rfl
  | cons c rest ih =>
    by_cases hp : pat.isPrefixOf (c :: rest) = true
    · right
      obtain ⟨t, ht⟩ := List.isPrefixOf_iff_prefix.mp hp
      refine ⟨[], t, by simp [← ht], ?_⟩
      unfold stripFirstOcc
      rw [if_pos hp]
      simp [← ht, List.drop_left]
    · rcases ih with h | ⟨a, b, hab, hres⟩
      · left
        unfold stripFirstOcc
        rw [if_neg hp, h]
      · right
        refine ⟨c :: a, b, by simp [hab], ?_⟩
        unfold stripFirstOcc
        rw [if_neg hp, hres]
        rfl

theorem zip_self_all (l : List (List Char)) :
    (List.zip l l).all (fun p => p.1 = p.2) = true := by
  induction l with
  | nil => rfl
  | cons x rest ih => simp [List.zip_cons_cons, ih]

theorem zip_prefix_all (l m : List (List Char)) :
    (List.zip l (l ++ m)).all (fun p => p.1 = p.2) = true := by
  induction l with
  | nil => rfl
  | cons x rest ih => simp [List.zip_cons_cons, ih]

theorem splitDots_cons_dot (rest : List Char) :
    splitDots ('.' :: rest) = [] :: splitDots rest := by
  simp only [splitDots, if_true]

theorem splitDots_cons_ne (c : Char) (rest : List Char) (hc : ¬ c = '.') :
    splitDots (c :: rest) =
      match splitDots rest with
      | g :: gs => (c :: g) :: gs
      | [] => [[c]] := by
  simp only [splitDots]
  rw [if_neg hc]

theorem splitDots_ne_nil (l : List Char) : splitDots l ≠ [] := by
  cases l with
  | nil => simp [splitDots]
  | cons c rest =>
    unfold splitDots
    split
    · simp
    · split <;> simp

theorem splitDots_append_dot (a b : List Char) :
    splitDots (a ++ '.' :: b) = splitDots a ++ splitDots b := by
  induction a with
  | nil =>
    show splitDots ('.' :: b) = [[]] ++ splitDots b
    rw [splitDots_cons_dot]
    rfl
  | cons c rest ih =>
    by_cases hc : c = '.'
    · subst hc
      show splitDots ('.' :: (rest ++ '.' :: b)) =
        splitDots ('.' :: rest) ++ splitDots b
      rw [splitDots_cons_dot, splitDots_cons_dot, ih]
      rfl
    · show splitDots (c :: (rest ++ '.' :: b)) =
        splitDots (c :: rest) ++ splitDots b
      rw [splitDots_cons_ne c _ hc, splitDots_cons_ne c rest hc, ih]
      cases hsr : splitDots rest with
      | nil => exact absurd hsr (splitDots_ne_nil rest)
      | cons g gs => rfl

theorem oidInSubtree_refl (x : String) : oidInSubtree x x = true := by
  unfold oidInSubtree
  dsimp only
  rw [if_neg (by omega)]
  exact zip_self_all _

theorem oidInSubtree_append_dot (x : String) (t : List Char) :
    oidInSubtree x (String.mk (x.data ++ '.' :: t)) = true := by
  unfold oidInSubtree
  dsimp only
  rw [splitDots_append_dot]
  rw [if_neg (by rw [List.length_append]; omega)]
  exact zip_prefix_all _ _

theorem userSecurityModelMsg_named (k name : String)
    (h : usmStatsLookup k = some name) :
    userSecurityModelMsg (UsmStatsBase ++ "." ++ k ++ ".0") = name := by
  unfold userSecurityModelMsg
  have h1 : (UsmStatsBase ++ "." ++ k ++ ".0" : String) =
      (UsmStatsBase ++ ".") ++ (k ++ ".0") := String.append_assoc _ _ _
  rw [h1, replaceFirst_strip, stripDotZero_append, h]
  rfl

theorem userSecurityModelMsg_outside (oid : String)
    (hpre : startsWithStr oid UsmStatsBase = true)
    (hsub : oidInSubtree UsmStatsBase oid = false) :
    userSecurityModelMsg oid = "Unexpected Report PDU" := by
  rcases hlk : usmStatsLookup
      (stripDotZero (replaceFirst oid (UsmStatsBase ++ "."))) with _ | name
  · unfold userSecurityModelMsg
    rw [hlk]
    rfl
  · exfalso
    obtain ⟨X, hXeq⟩ : ∃ X, oid.data = UsmStatsBase.data ++ X := by
      unfold startsWithStr at hpre
      obtain ⟨t, ht⟩ := List.isPrefixOf_iff_prefix.mp hpre
      exact ⟨t, ht.symm⟩
    have hXne : X ≠ [] := by
      intro h0
      rw [h0, List.append_nil] at hXeq
      have hxb : oid = UsmStatsBase := stringDataEq hXeq
      rw [hxb, oidInSubtree_refl] at hsub
      exact absurd hsub (by decide)
    obtain ⟨c, Y, hXc⟩ : ∃ c Y, X = c :: Y := by
      cases X with
      | nil => exact absurd rfl hXne
      | cons c Y => exact ⟨c, Y, rfl⟩
    have hcne : c ≠ '.' := by
      intro hc
      have hdd : oid.data = (String.mk (UsmStatsBase.data ++ '.' :: Y)).data := by
        show oid.data = UsmStatsBase.data ++ '.' :: Y
        rw [hXeq, hXc, hc]
      have hxb : oid = String.mk (UsmStatsBase.data ++ '.' :: Y) :=
        stringDataEq hdd
      rw [hxb, oidInSubtree_append_dot] at hsub
      exact absurd hsub (by decide)
    have hklen := usmStatsLookup_key_length hlk
    have hshape := stripDotZero_shape (replaceFirst oid (UsmStatsBase ++ "."))
    have hrlen : (replaceFirst oid (UsmStatsBase ++ ".")).data.length = 1 ∨
        (replaceFirst oid (UsmStatsBase ++ ".")).data.length = 3 := by
      rcases hshape with h | h
      · left
        omega
      · right
        omega
    have hres : (replaceFirst oid (UsmStatsBase ++ ".")).data =
        stripFirstOcc (UsmStatsBase ++ "." : String).data oid.data := rfl
    have hbaselen : UsmStatsBase.data.length = 18 := by decide
    rcases stripFirstOcc_cases (UsmStatsBase ++ "." : String).data oid.data
      with hnone | ⟨a, b, hocc, hstrip⟩
    · rw [hres, hnone] at hrlen
      rw [hXeq, List.length_append, hbaselen] at hrlen
      omega
    · rw [hres, hstrip, List.length_append] at hrlen
      have hpd : (UsmStatsBase ++ "." : String).data =
          UsmStatsBase.data ++ ['.'] := by decide
      have hmid : oid.data[a.length]? = some '1' := by
        rw [hocc, List.append_assoc]
        rw [List.getElem?_append, if_neg (by omega), Nat.sub_self]
        rw [List.getElem?_append, if_pos (by decide)]
        decide
      have hprefix_at : ∀ i, i < 18 →
          oid.data[i]? = UsmStatsBase.data[i]? := by
        intro i hi
        rw [hXeq]
        rw [List.getElem?_append, if_pos (by omega)]
      rcases a with _ | ⟨c1, a1⟩
      · rw [hpd] at hocc
        simp only [List.nil_append, List.append_assoc,
          List.singleton_append] at hocc
        rw [hXeq, hXc] at hocc
        have hcan := List.append_cancel_left hocc
        injection hcan with hc1 hc2
        exact hcne hc1
      · rcases a1 with _ | ⟨c2, a2⟩
        · have h18 := hprefix_at 1 (by omega)
          rw [show UsmStatsBase.data[1]? = some ('.') from by decide] at h18
          simp only [List.length_cons, List.length_nil, Nat.zero_add] at hmid
          rw [h18] at hmid
          exact absurd hmid (by decide)
        · rcases a2 with _ | ⟨c3, a3⟩
          · have h18 := hprefix_at 2 (by omega)
            rw [show UsmStatsBase.data[2]? = some ('3') from by decide] at h18
            simp only [List.length_cons, List.length_nil, Nat.zero_add] at hmid
            rw [h18] at hmid
            exact absurd hmid (by decide)
          · rcases a3 with _ | ⟨c4, a4⟩
            · have h18 := hprefix_at 3 (by omega)
              rw [show UsmStatsBase.data[3]? = some ('.') from by decide]
                at h18
              simp only [List.length_cons, List.length_nil, Nat.zero_add]
                at hmid
              rw [h18] at hmid
              exact absurd hmid (by decide)
            · simp only [List.length_cons] at hrlen
              omega

theorem onMsg_report_out {s : SessionState} {m : Message} {req : PendingReq}
    {sendOk : Bool}
    (hf : s.reqs.find? (fun q => q.id = m.id) = some req)
    (hsec : m.secOk = true) (hver : m.version = req.message.version)
    (hcom : m.community = req.message.community)
    (hpdu : m.pduType = PduTypeReport) :
    (onMsg s m sendOk).2 =
      (match onReport { req with timerArmed := false } m with
       | ReportAction.deliverError msg code =>
         [OutEvent.delivered req.id (Outcome.responseInvalid msg code)]
       | ReportAction.resend =>
         if sendOk = true then [OutEvent.sent req.id req.message]
         else [OutEvent.delivered req.id Outcome.sendError]) := by
  unfold onMsg
  rw [unregisterRequest_found hf]
  dsimp only
  rw [if_neg (by simp [hsec]), if_neg (by simp [hver]),
    if_neg (by simp [hcom]), if_pos hpdu]
  cases honr : onReport { req with timerArmed := false } m with
  | deliverError msg code => rfl
  | resend =>
    unfold sendReq
    by_cases hok : sendOk = true
    · rw [if_pos hok, if_pos hok]
    · rw [if_neg hok, if_neg hok]

/-- C5: dispatch of a Report PDU that matches a registered request and
passes the security, version and community checks.  (a) If the request
is not entitled to a resend (it lacks its original PDU or does not allow
a report) and the report's first varbind OID is the UsmStats base
followed by a table key and a trailing .0, the request fails with that
table entry's named USM error under code EAuthFailure.  (b) If such a
request's first varbind OID lies outside the UsmStats subtree, it fails
with the generic "Unexpected Report PDU" message.  (c) If the request
holds its original PDU and allows a report, the stored message is
re-sent under the same id instead of failing. -/
theorem report_pdu_handling (s : SessionState) (m : Message)
    (req : PendingReq) (sendOk : Bool)
    (hf : s.reqs.find? (fun q => q.id = m.id) = some req)
    (hsec : m.secOk = true) (hver : m.version = req.message.version)
    (hcom : m.community = req.message.community)
    (hpdu : m.pduType = PduTypeReport) :
    (∀ (v : Varbind) (k name : String),
        req.hasOriginalPdu = false ∨ req.allowReport = false →
        m.varbinds.head? = some v →
        usmStatsLookup k = some name →
        v.oid = UsmStatsBase ++ "." ++ k ++ ".0" →
        (onMsg s m sendOk).2 =
          [OutEvent.delivered req.id
            (Outcome.responseInvalid name EAuthFailure)]) ∧
    (∀ v : Varbind,
        req.hasOriginalPdu = false ∨ req.allowReport = false →
        m.varbinds.head? = some v →
        oidInSubtree UsmStatsBase v.oid = false →
        ∃ code, (onMsg s m sendOk).2 =
          [OutEvent.delivered req.id
            (Outcome.responseInvalid "Unexpected Report PDU" code)]) ∧
    (req.hasOriginalPdu = true → req.allowReport = true → sendOk = true →
        (onMsg s m sendOk).2 = [OutEvent.sent req.id req.message]) := by
  refine ⟨?_, ?_, ?_⟩
  · intro v k name hno hhead hlk hvoid
    rw [onMsg_report_out hf hsec hver hcom hpdu]
    have hsw : startsWithStr v.oid UsmStatsBase = true := by
      rw [hvoid]
      have h1 : (UsmStatsBase ++ "." ++ k ++ ".0" : String) =
          UsmStatsBase ++ ("." ++ (k ++ ".0")) := by
        rw [String.append_assoc, String.append_assoc]
      rw [h1]
      exact startsWithStr_append _ _
    have honr : onReport { req with timerArmed := false } m =
        ReportAction.deliverError name EAuthFailure := by
      unfold onReport
      dsimp only
      rw [if_pos hno, hhead]
      dsimp only
      rw [if_pos hsw, hvoid, userSecurityModelMsg_named k name hlk]
    rw [honr]
  · intro v hno hhead hsub
    rw [onMsg_report_out hf hsec hver hcom hpdu]
    by_cases hsw : startsWithStr v.oid UsmStatsBase = true
    · refine ⟨EAuthFailure, ?_⟩
      have honr : onReport { req with timerArmed := false } m =
          ReportAction.deliverError "Unexpected Report PDU" EAuthFailure := by
        unfold onReport
        dsimp only
        rw [if_pos hno, hhead]
        dsimp only
        rw [if_pos hsw, userSecurityModelMsg_outside v.oid hsw hsub]
      rw [honr]
    · refine ⟨EUnexpectedReport, ?_⟩
      have honr : onReport { req with timerArmed := false } m =
          ReportAction.deliverError "Unexpected Report PDU"
            EUnexpectedReport := by
        unfold onReport
        dsimp only
        rw [if_pos hno, hhead]
        dsimp only
        rw [if_neg hsw]
      rw [honr]
  · intro h1 h2 hok3
    rw [onMsg_report_out hf hsec hver hcom hpdu]
    have honr : onReport { req with timerArmed := false } m =
        ReportAction.resend := by
      unfold onReport
      dsimp only
      rw [if_neg (by simp [h1, h2])]
    rw [honr]
    dsimp only
    rw [if_pos hok3]

/-- Concrete Report message for the C5 witness: first varbind names
usmStatsUnknownUserNames (base.3.0). -/
def reportWitnessMsg : Message :=
  { id := 7, version := 3, community := "", pduType := 168, varbinds := [{ oid := "1.3.6.1.6.3.15.1.1.3.0", type := 6, value := Value.int 0 }], engineBoots := 0, engineTime := 0, secOk := true }

/-- Concrete pending request for the C5 witness (no original PDU). -/
def reportWitnessReq : PendingReq :=
  { id := 7, message := reportWitnessMsg, retries := 0, timerArmed := true, hasOriginalPdu := false, allowReport := false }

/-- Concrete session state for the C5 witness. -/
def reportWitnessState : SessionState :=
  { reqs := [reportWitnessReq], reqCount := 1, refd := true, secParams := none, retriesSetting := 0 }

theorem report_pdu_handling_witness :
    (onMsg reportWitnessState reportWitnessMsg true).2 =
      [OutEvent.delivered 7
        (Outcome.responseInvalid "Unknown User Name" EAuthFailure)] := by
  have h := (report_pdu_handling reportWitnessState reportWitnessMsg
      reportWitnessReq true (by decide) rfl rfl rfl rfl).1
    { oid := "1.3.6.1.6.3.15.1.1.3.0", type := 6, value := Value.int 0 }
    "3" "Unknown User Name" (Or.inl rfl) rfl (by decide) (by decide)
  simpa [reportWitnessReq] using h

theorem at_most_one_terminal_outcome_witness :
    deliveredCount 7 (sessionRun { reqs := [{ id := 7, message := { id := 7, version := 1, community := "public", pduType := 162, varbinds := [], engineBoots := 0, engineTime := 0, secOk := true }, retries := 1, timerArmed := true, hasOriginalPdu := false, allowReport := false }], reqCount := 1, refd := true, secParams := none, retriesSetting := 1 } [SessionEvent.timerExpire 7 true, SessionEvent.msgArrive { id := 7, version := 1, community := "public", pduType := 162, varbinds := [], engineBoots := 0, engineTime := 0, secOk := true } true]).2 ≤ 1 :=
  at_most_one_terminal_outcome
    { reqs := [{ id := 7, message := { id := 7, version := 1, community := "public", pduType := 162, varbinds := [], engineBoots := 0, engineTime := 0, secOk := true }, retries := 1, timerArmed := true, hasOriginalPdu := false, allowReport := false }], reqCount := 1, refd := true, secParams := none, retriesSetting := 1 }
    [SessionEvent.timerExpire 7 true, SessionEvent.msgArrive { id := 7, version := 1, community := "public", pduType := 162, varbinds := [], engineBoots := 0, engineTime := 0, secOk := true } true]
    7 (by unfold idsNodup; decide) (by decide)

end NetSnmp
